import Mathlib

/-
  Verification of the chain_link_tools Blender add-on (src/operator.py).

  The embedding is a shallow model over exact rationals (ℚ stands in for the
  host's floating-point scalars, so "within floating tolerance" statements
  become exact equalities).  Host-owned containers (edit bones, pose bones,
  bmesh vertices, vertex groups) are modelled as explicit functional state;
  the two operators AddBoneChain.execute and CreateChainMeshArray.execute are
  translated statement by statement from the source.
-/

/-! ## Basic geometry: vectors, matrices, affine transforms -/

/-- A 3-component vector over ℚ, modelling mathutils.Vector. -/
structure Vec3 where
  x : ℚ
  y : ℚ
  z : ℚ
deriving DecidableEq, Repr

instance : Add Vec3 where
  add a b := ⟨a.x + b.x, a.y + b.y, a.z + b.z⟩

instance : Sub Vec3 where
  sub a b := ⟨a.x - b.x, a.y - b.y, a.z - b.z⟩

/-- Scalar multiplication of a vector (mathutils Vector * scalar). -/
def Vec3.smul (c : ℚ) (v : Vec3) : Vec3 :=
  ⟨c * v.x, c * v.y, c * v.z⟩

/-- The zero vector. -/
def Vec3.zero : Vec3 := ⟨0, 0, 0⟩

/-- A 3x3 matrix over ℚ (row-major entries), modelling the linear part of a
mathutils.Matrix. -/
structure Mat3 where
  a00 : ℚ
  a01 : ℚ
  a02 : ℚ
  a10 : ℚ
  a11 : ℚ
  a12 : ℚ
  a20 : ℚ
  a21 : ℚ
  a22 : ℚ
deriving DecidableEq, Repr

/-- Matrix-vector product (column-vector convention, as in Blender). -/
def Mat3.mulVec (A : Mat3) (v : Vec3) : Vec3 :=
  ⟨A.a00 * v.x + A.a01 * v.y + A.a02 * v.z,
   A.a10 * v.x + A.a11 * v.y + A.a12 * v.z,
   A.a20 * v.x + A.a21 * v.y + A.a22 * v.z⟩

/-- Matrix product. -/
def Mat3.mul (A B : Mat3) : Mat3 :=
  ⟨A.a00 * B.a00 + A.a01 * B.a10 + A.a02 * B.a20,
   A.a00 * B.a01 + A.a01 * B.a11 + A.a02 * B.a21,
   A.a00 * B.a02 + A.a01 * B.a12 + A.a02 * B.a22,
   A.a10 * B.a00 + A.a11 * B.a10 + A.a12 * B.a20,
   A.a10 * B.a01 + A.a11 * B.a11 + A.a12 * B.a21,
   A.a10 * B.a02 + A.a11 * B.a12 + A.a12 * B.a22,
   A.a20 * B.a00 + A.a21 * B.a10 + A.a22 * B.a20,
   A.a20 * B.a01 + A.a21 * B.a11 + A.a22 * B.a21,
   A.a20 * B.a02 + A.a21 * B.a12 + A.a22 * B.a22⟩

/-- The identity matrix. -/
def Mat3.idM : Mat3 := ⟨1, 0, 0, 0, 1, 0, 0, 0, 1⟩

/-- Determinant. -/
def Mat3.det (A : Mat3) : ℚ :=
  A.a00 * (A.a11 * A.a22 - A.a12 * A.a21)
  - A.a01 * (A.a10 * A.a22 - A.a12 * A.a20)
  + A.a02 * (A.a10 * A.a21 - A.a11 * A.a20)

/-- Matrix inverse by the adjugate formula (models mathutils Matrix.inverted;
for a singular matrix the ℚ-division-by-zero convention yields a garbage value,
which the host would reject instead, so theorems needing invertibility carry it
as an explicit hypothesis). -/
def Mat3.inv (A : Mat3) : Mat3 :=
  let d := A.det
  ⟨(A.a11 * A.a22 - A.a12 * A.a21) / d,
   -(A.a01 * A.a22 - A.a02 * A.a21) / d,
   (A.a01 * A.a12 - A.a02 * A.a11) / d,
   -(A.a10 * A.a22 - A.a12 * A.a20) / d,
   (A.a00 * A.a22 - A.a02 * A.a20) / d,
   -(A.a00 * A.a12 - A.a02 * A.a10) / d,
   (A.a10 * A.a21 - A.a11 * A.a20) / d,
   -(A.a00 * A.a21 - A.a01 * A.a20) / d,
   (A.a00 * A.a11 - A.a01 * A.a10) / d⟩

/-- An affine transform (the 4x4 matrix_world of an object: linear part plus
translation column). -/
structure AffineT where
  lin : Mat3
  tr : Vec3
deriving DecidableEq, Repr

/-- Apply an affine transform to a point (matrix @ vector in Blender). -/
def AffineT.apply (T : AffineT) (v : Vec3) : Vec3 :=
  T.lin.mulVec v + T.tr

/-- Composition of affine transforms (matrix @ matrix); T.comp U applies U
first. -/
def AffineT.comp (T U : AffineT) : AffineT :=
  ⟨T.lin.mul U.lin, T.lin.mulVec U.tr + T.tr⟩

/-- Inverse of an affine transform (matrix_world.inverted()). -/
def AffineT.inverted (T : AffineT) : AffineT :=
  ⟨T.lin.inv, Vec3.smul (-1) (T.lin.inv.mulVec T.tr)⟩

/-- The identity affine transform. -/
def AffineT.idT : AffineT := ⟨Mat3.idM, Vec3.zero⟩

/-! ## Shared operator plumbing -/

/-- Outcome of an operator execute call: FINISHED, or CANCELLED together with
the self.report error kind and message. -/
inductive OpResult where
  | finished
  | cancelled (errorKind : String) (message : String)
deriving DecidableEq, Repr

/-! ## AddBoneChain data model -/

/-- A curve spline; calc_length is the scalar returned by
Spline.calc_length(). -/
structure Spline where
  calc_length : ℚ
deriving DecidableEq, Repr

/-- Curve data: ordered splines plus the path_duration used by follow-path
offsets. -/
structure Curve where
  splines : List Spline
  path_duration : ℚ
deriving DecidableEq, Repr

/-- An armature edit bone.  The parent reference is stored by bone name. -/
structure EditBone where
  name : String
  head : Vec3
  tail : Vec3
  parent : Option String
deriving DecidableEq, Repr

/-- A pose-bone constraint, one constructor per constraint type created by
AddBoneChain.execute.  Object targets are stored by object name. -/
inductive Constraint where
  | followPath (target : String) (offset : ℚ) (use_curve_follow : Bool)
      (forward_axis : String) (up_axis : String)
  | copyLocation (target : String) (subtarget : String)
  | trackTo (target : String) (subtarget : String) (use_target_z : Bool)
deriving DecidableEq, Repr

/-- A pose bone with its constraint stack. -/
structure PoseBone where
  name : String
  constraints : List Constraint
deriving DecidableEq, Repr

/-- The host state AddBoneChain.execute reads and mutates: the scene's curve
objects (name-keyed), the 3D cursor, and the active armature object with its
edit bones and pose bones. -/
structure BuilderCtx where
  curve_objects : List (String × Curve)
  cursor : Vec3
  arm_name : String
  arm_matrix_world : AffineT
  edit_bones : List EditBone
  pose_bones : List PoseBone
deriving DecidableEq, Repr

/-- bpy.data.objects.get over the scene's curve objects. -/
def lookupCurve : List (String × Curve) → String → Option Curve
  | [], _ => none
  | o :: rest, n => if o.1 = n then some o.2 else lookupCurve rest n

/-- Zero-padded 3-digit decimal rendering, the "{:03d}" Python format. -/
def pad3 (i : Nat) : String :=
  let s := toString i
  if s.length < 3 then String.mk (List.replicate (3 - s.length) '0') ++ s.toList.asString else s

/-- AddBoneChain.get_bone_name. -/
def get_bone_name (bone_name : String) (i : Nat) : String :=
  bone_name ++ "." ++ pad3 i

/-- AddBoneChain.get_locator_name. -/
def get_locator_name (bone_name : String) (i : Nat) : String :=
  bone_name ++ "." ++ pad3 i ++ ".Locator"

/-- arm.edit_bones.get: first bone with the given name. -/
def ebGet : List EditBone → String → Option EditBone
  | [], _ => none
  | b :: rest, n => if b.name = n then some b else ebGet rest n

/-- One iteration of the edit-bone creation loop (lines 119-128 of
operator.py): append main bone i (head/tail on the cursor-based x-axis ladder,
mapped by the inverse armature world matrix; parent looked up by name for
i > 0) and then its locator bone. -/
def addChainBone (bone_name : String) (space : AffineT) (C : Vec3) (L : ℚ)
    (i : Nat) (bones : List EditBone) : List EditBone :=
  let bone : EditBone :=
    { name := get_bone_name bone_name i
      head := space.apply (C + Vec3.smul (i : ℚ) ⟨L, 0, 0⟩)
      tail := space.apply (C + Vec3.smul ((i : ℚ) + 1) ⟨L, 0, 0⟩)
      parent := if 0 < i then (ebGet bones (get_bone_name bone_name (i - 1))).map (fun b => b.name)
                else none }
  let bones1 := bones ++ [bone]
  let locator : EditBone :=
    { name := get_locator_name bone_name i
      head := space.apply ⟨0, 0, 0⟩
      tail := space.apply ⟨L * (1 / 2), 0, 0⟩
      parent := none }
  bones1 ++ [locator]

/-- The edit-bone creation loop, for i in range(n) in ascending order. -/
def buildEditBones (bone_name : String) (space : AffineT) (C : Vec3) (L : ℚ) :
    Nat → List EditBone → List EditBone
  | 0, bones => bones
  | n + 1, bones => addChainBone bone_name space C L n (buildEditBones bone_name space C L n bones)

/-- pose.bones.get: first pose bone with the given name. -/
def pbGet : List PoseBone → String → Option PoseBone
  | [], _ => none
  | b :: rest, n => if b.name = n then some b else pbGet rest n

/-- constraints.new on the first pose bone with the given name (appends the
new constraint at the end of its stack). -/
def addConstraint (n : String) (c : Constraint) : List PoseBone → List PoseBone
  | [] => []
  | pb :: rest =>
      if pb.name = n then { pb with constraints := pb.constraints ++ [c] } :: rest
      else pb :: addConstraint n c rest

/-- One iteration of the constraint loop (lines 133-151 of operator.py):
follow-path on locator i, then copy-location and track-to on main bone i. -/
def constraintStep (bone_count : Nat) (bone_name arm_name curve_name : String)
    (D : ℚ) (i : Nat) (pbs : List PoseBone) : List PoseBone :=
  let pbs1 := addConstraint (get_locator_name bone_name i)
      (Constraint.followPath curve_name ((i : ℚ) * D / (bone_count : ℚ)) true
        "TRACK_NEGATIVE_Y" "UP_Z") pbs
  let pbs2 := addConstraint (get_bone_name bone_name i)
      (Constraint.copyLocation arm_name (get_locator_name bone_name i)) pbs1
  addConstraint (get_bone_name bone_name i)
      (Constraint.trackTo arm_name (get_locator_name bone_name ((i + 1) % bone_count)) true) pbs2

/-- The constraint loop, for i in range(n) in ascending order. -/
def applyConstraints (bone_count : Nat) (bone_name arm_name curve_name : String)
    (D : ℚ) : Nat → List PoseBone → List PoseBone
  | 0, pbs => pbs
  | n + 1, pbs =>
      constraintStep bone_count bone_name arm_name curve_name D n
        (applyConstraints bone_count bone_name arm_name curve_name D n pbs)

/-- Pose bones mirroring freshly created edit bones after leaving edit mode
(host behavior: one pose bone per edit bone, empty constraint stack). -/
def mirrorBones (ebs : List EditBone) : List PoseBone :=
  ebs.map (fun b => { name := b.name, constraints := [] })

/-- AddBoneChain.execute (lines 95-153 of operator.py): validate the curve,
compute the per-link length from the first spline, create the interleaved
main/locator edit bones, then attach the three constraints per link. -/
def AddBoneChain.execute (bone_count : Nat) (bone_name curve_enum : String)
    (ctx : BuilderCtx) : OpResult × BuilderCtx :=
  match lookupCurve ctx.curve_objects curve_enum with
  | none => (OpResult.cancelled "ERROR_INVALID_INPUT" ("Invalid curve object " ++ curve_enum), ctx)
  | some curve =>
    match curve.splines with
    | [] => (OpResult.cancelled "ERROR_INVALID_INPUT" "Curve object must have at least one spline", ctx)
    | spline :: _ =>
      let spline_len := spline.calc_length
      let space := ctx.arm_matrix_world.inverted
      let C := ctx.cursor
      let L := spline_len / (bone_count : ℚ)
      let ebs := buildEditBones bone_name space C L bone_count ctx.edit_bones
      let pbs0 := ctx.pose_bones ++ mirrorBones (ebs.drop ctx.edit_bones.length)
      let pbs := applyConstraints bone_count bone_name ctx.arm_name curve_enum
        curve.path_duration bone_count pbs0
      (OpResult.finished, { ctx with edit_bones := ebs, pose_bones := pbs })

/-! ## CreateChainMeshArray data model -/

/-- An armature bone as seen from object mode: name, head/tail in
armature-local space, and the list of child bones (the parent/child hierarchy
presented as a tree; Blender keeps it acyclic). -/
inductive BoneNode : Type where
  | node (name : String) (head_local : Vec3) (tail_local : Vec3) (children : List BoneNode)

/-- Bone name accessor. -/
def BoneNode.name : BoneNode → String
  | .node n _ _ _ => n

/-- Bone head_local accessor. -/
def BoneNode.head_local : BoneNode → Vec3
  | .node _ h _ _ => h

/-- Bone tail_local accessor. -/
def BoneNode.tail_local : BoneNode → Vec3
  | .node _ _ t _ => t

/-- Bone children accessor. -/
def BoneNode.children : BoneNode → List BoneNode
  | .node _ _ _ cs => cs

/-- The chain walk of CreateChainMeshArray.execute (lines 200-202 of
operator.py): chain = [rootbone]; while chain[-1].children:
chain.append(chain[-1].children[0]). -/
def chainWalk : BoneNode → List BoneNode
  | .node n h t [] => [.node n h t []]
  | .node n h t (c :: rest) => .node n h t (c :: rest) :: chainWalk c

mutual

/-- Number of bones in a bone subtree. -/
def BoneNode.size : BoneNode → Nat
  | .node _ _ _ cs => 1 + sizeListBN cs

/-- Number of bones in a forest of bone subtrees. -/
def sizeListBN : List BoneNode → Nat
  | [] => 0
  | b :: rest => BoneNode.size b + sizeListBN rest

end

/-- arm.bones.get over an armature's bone forest: first bone anywhere in the
hierarchy carrying the given name (Blender keeps bone names unique, so the
traversal order is immaterial). -/
def findBone : List BoneNode → String → Option BoneNode
  | [], _ => none
  | .node bn h t cs :: rest, n =>
    if bn = n then some (.node bn h t cs)
    else match findBone cs n with
      | some r => some r
      | none => findBone rest n
termination_by bs _ => sizeOf bs

mutual

/-- All bone names of a subtree. -/
def BoneNode.allNames : BoneNode → List String
  | .node n _ _ cs => n :: allNamesListBN cs

/-- All bone names of a forest. -/
def allNamesListBN : List BoneNode → List String
  | [] => []
  | b :: rest => BoneNode.allNames b ++ allNamesListBN rest

end

/-- An armature object: its bone hierarchy (top-level bones with nested
children) and its world transform. -/
structure ArmObj where
  bones : List BoneNode
  matrix_world : AffineT

/-- A modifier on the active mesh object: its type tag and, for armature
modifiers, the referenced armature object (mod.object, possibly None). -/
structure Modifier where
  type : String
  object : Option ArmObj

/-- get_armature_object (lines 160-165 of operator.py): the object of the
first ARMATURE modifier, or None when there is none (a first armature modifier
with an empty object reference also yields None, exactly as the Python
function returns mod.object unconditionally). -/
def get_armature_object : List Modifier → Option ArmObj
  | [] => none
  | m :: rest => if m.type = "ARMATURE" then m.object else get_armature_object rest

/-- A bmesh vertex: a stable identity (modelling the BMVert reference), its
coordinate, its selection flag, and its deform-layer weights as a total map
from vertex-group index to weight (an index absent from the sparse host layer
reads as weight 0, so the map representation is the lookup semantics). -/
structure BMVert where
  id : Nat
  co : Vec3
  select : Bool
  dvert : Nat → ℚ

/-- The mesh state CreateChainMeshArray.execute mutates: bmesh vertices (the
edges and faces of the b-mesh carry no per-vertex data, and duplicating a
selected face or edge duplicates its — likewise selected — vertices, so the
vertex list is the part of the geometry the claims observe), the mesh
object's vertex-group names in index order, and the next fresh vertex
identity. -/
structure MeshState where
  verts : List BMVert
  vertex_groups : List String
  next_id : Nat

/-- Boolean membership test on vertex identities. -/
def idMem (ids : List Nat) (x : Nat) : Bool :=
  match ids with
  | [] => false
  | i :: rest => if i = x then true else idMem rest x

/-- The list of n consecutive identities starting at base. -/
def idRange (base : Nat) : Nat → List Nat
  | 0 => []
  | n + 1 => base :: idRange (base + 1) n

/-- vertex_groups.get(name).index: position of a group name in the mesh's
vertex-group list. -/
def vgIndex : List String → String → Option Nat
  | [], _ => none
  | g :: rest, n => if g = n then some 0 else (vgIndex rest n).map (fun k => k + 1)

/-- Host behavior of removing the vertex group at index k: groups after it
shift down one index and every deform entry is remapped accordingly (entries
of the removed group are dropped). -/
def remapDvert (k : Nat) (d : Nat → ℚ) : Nat → ℚ :=
  fun j => if j < k then d j else d (j + 1)

/-- vertex_groups.remove of the group with the given name (no-op when the
name is absent, matching the guarded removal in the source). -/
def removeVGroup (n : String) (m : MeshState) : MeshState :=
  match vgIndex m.vertex_groups n with
  | none => m
  | some k =>
    { m with
      vertex_groups := m.vertex_groups.eraseIdx k
      verts := m.verts.map (fun v => { v with dvert := remapDvert k v.dvert }) }

/-- One iteration of the vertex-group loop (lines 204-208 of operator.py):
remove any pre-existing group of the bone's name, then create a fresh group
of that name (appended at the end of the group list). -/
def rebuildVGroup (n : String) (m : MeshState) : MeshState :=
  let m1 := removeVGroup n m
  { m1 with vertex_groups := m1.vertex_groups ++ [n] }

/-- The vertex-group loop over the chain bones, in chain order. -/
def rebuildVGroups : List BoneNode → MeshState → MeshState
  | [], m => m
  | b :: rest, m => rebuildVGroups rest (rebuildVGroup b.name m)

/-- Point update of a deform map: dvert[vg_index] = w. -/
def dvertSet (k : Nat) (w : ℚ) (d : Nat → ℚ) : Nat → ℚ :=
  fun j => if j = k then w else d j

/-- assign_bone_verts (lines 214-218 of operator.py): set weight 1.0 for each
of the given vertices in the group named bone_name.  The source would raise on
a missing group; on the execute path the group always exists because the group
loop just created it, and the model leaves the mesh unchanged in that
impossible branch. -/
def assign_bone_verts (bone_name : String) (ids : List Nat) (m : MeshState) : MeshState :=
  match vgIndex m.vertex_groups bone_name with
  | none => m
  | some k =>
    { m with
      verts := m.verts.map (fun v =>
        if idMem ids v.id then { v with dvert := dvertSet k 1 v.dvert } else v) }

/-- Fresh copies of a list of template vertices, with consecutive new
identities starting at base (coordinates, selection and deform weights are
copied — the host copies all custom data, in particular the vertex-group
weights, onto duplicated geometry). -/
def freshCopies (base : Nat) : List BMVert → List BMVert
  | [] => []
  | v :: rest => { v with id := base } :: freshCopies (base + 1) rest

/-- bmesh.ops.duplicate on the template vertices: append fresh copies and
return the new state together with the identities of the new vertices
(dupli_verts). -/
def dupliVerts (ids : List Nat) (m : MeshState) : MeshState × List Nat :=
  let tmpl := m.verts.filter (fun v => idMem ids v.id)
  let newVerts := freshCopies m.next_id tmpl
  ({ m with verts := m.verts ++ newVerts, next_id := m.next_id + tmpl.length },
   newVerts.map (fun v => v.id))

/-- Modelled from the spec: bmesh.ops.translate is host API absent from src/;
per section 4.2 step 7 of the design document it translates the listed
vertices by the given vector "mapped into mesh-local space via the combined
mesh-armature transform", i.e. each coordinate becomes
co + space.lin.mulVec vec where space is the matrix passed as the operator's
space argument. -/
def bmesh_ops_translate (vec : Vec3) (space : AffineT) (ids : List Nat) (m : MeshState) : MeshState :=
  { m with
    verts := m.verts.map (fun v =>
      if idMem ids v.id then { v with co := v.co + space.lin.mulVec vec } else v) }

/-- One iteration of the duplication loop (lines 229-236 of operator.py):
duplicate the template, translate the duplicate by (pi - p0) in bone space,
and assign the duplicate's vertices to the bone's group with weight 1. -/
def duplicateStep (bone_space : AffineT) (p0 : Vec3) (template : List Nat)
    (b : BoneNode) (m : MeshState) : MeshState :=
  let r := dupliVerts template m
  let pim := Vec3.smul (1 / 2) (b.head_local + b.tail_local)
  let m2 := bmesh_ops_translate (pim - p0) bone_space r.2 r.1
  assign_bone_verts b.name r.2 m2

/-- The duplication loop over chain[1:], in chain order. -/
def duplicateLoop (bone_space : AffineT) (p0 : Vec3) (template : List Nat) :
    List BoneNode → MeshState → MeshState
  | [], m => m
  | b :: rest, m =>
      duplicateLoop bone_space p0 template rest (duplicateStep bone_space p0 template b m)

/-- The host state CreateChainMeshArray.execute reads: the active mesh
object's modifier stack, its mesh/bmesh state, and its world transform. -/
structure ReplicatorCtx where
  modifiers : List Modifier
  mesh : MeshState
  mesh_matrix_world : AffineT

/-- CreateChainMeshArray.execute (lines 187-247 of operator.py): resolve the
armature, resolve the root bone, walk the first-child chain, rebuild one
vertex group per chain bone, duplicate/translate/weight the selected template
once per non-root chain bone, and finally assign the root group to the
original template vertices. -/
def CreateChainMeshArray.execute (rootbone_enum : String) (ctx : ReplicatorCtx) :
    OpResult × MeshState :=
  match get_armature_object ctx.modifiers with
  | none => (OpResult.cancelled "ERROR_INVALID_CONTEXT" "Could not find armature modifier or object", ctx.mesh)
  | some arm_obj =>
    match findBone arm_obj.bones rootbone_enum with
    | none => (OpResult.cancelled "ERROR_INVALID_CONTEXT" ("Could not find root bone " ++ rootbone_enum), ctx.mesh)
    | some rootbone =>
      let chain := chainWalk rootbone
      let m1 := rebuildVGroups chain ctx.mesh
      let bone_space := ctx.mesh_matrix_world.inverted.comp arm_obj.matrix_world
      let template := (m1.verts.filter (fun v => v.select)).map (fun v => v.id)
      let p0 := Vec3.smul (1 / 2) (rootbone.head_local + rootbone.tail_local)
      let m2 := duplicateLoop bone_space p0 template (chain.drop 1) m1
      let m3 := assign_bone_verts rootbone.name template m2
      (OpResult.finished, m3)

/-! ## Observation and specification-side definitions -/

/-- Weight of a vertex in the group of the given name (0 when no such group
exists, matching the host's sparse-layer read). -/
def weightOf (m : MeshState) (v : BMVert) (groupName : String) : ℚ :=
  match vgIndex m.vertex_groups groupName with
  | none => 0
  | some k => v.dvert k

/-- Sum of a list of vectors. -/
def vecSum : List Vec3 → Vec3
  | [] => Vec3.zero
  | v :: rest => v + vecSum rest

/-- Centroid (midpoint) of a list of points. -/
def centroid (ps : List Vec3) : Vec3 :=
  Vec3.smul (1 / (ps.length : ℚ)) (vecSum ps)

/-- Armature-local coordinates of a mesh-local point: through the mesh's
world transform and back through the inverse of the armature's. -/
def armatureSpaceCoords (mesh_world arm_world : AffineT) (q : Vec3) : Vec3 :=
  arm_world.inverted.apply (mesh_world.apply q)

/-- The curve's total arc length in the words of the specification: the sum
of the lengths of all its splines (the source instead reads only
splines[0].calc_length()). -/
def curveTotalArcLength (c : Curve) : ℚ :=
  (c.splines.map Spline.calc_length).sum

/-- k-fold iteration of "take the first child", the specification's
description of the chain walk, written by recursion on the step count. -/
def iterFirstChild : Nat → BoneNode → Option BoneNode
  | 0, b => some b
  | k + 1, b =>
    match b.children with
    | [] => none
    | c :: _ => iterFirstChild k c

/-- Fuel-bounded reading of the while loop of the chain walk: none when the
loop has not reached a childless bone within the given number of iterations. -/
def chainWalkFuel : Nat → BoneNode → Option (List BoneNode)
  | 0, _ => none
  | fuel + 1, b =>
    match b.children with
    | [] => some [b]
    | c :: _ => (chainWalkFuel fuel c).map (fun l => b :: l)

/-- The main bone the edit-bone loop is expected to append at index i. -/
def chainBoneAt (bone_name : String) (space : AffineT) (C : Vec3) (L : ℚ) (i : Nat) : EditBone :=
  { name := get_bone_name bone_name i
    head := space.apply (C + Vec3.smul (i : ℚ) ⟨L, 0, 0⟩)
    tail := space.apply (C + Vec3.smul ((i : ℚ) + 1) ⟨L, 0, 0⟩)
    parent := if i = 0 then none else some (get_bone_name bone_name (i - 1)) }

/-- The locator bone the edit-bone loop is expected to append at index i. -/
def chainLocatorAt (bone_name : String) (space : AffineT) (L : ℚ) (i : Nat) : EditBone :=
  { name := get_locator_name bone_name i
    head := space.apply ⟨0, 0, 0⟩
    tail := space.apply ⟨L * (1 / 2), 0, 0⟩
    parent := none }

/-- The interleaved main/locator bones expected from the first n loop
iterations. -/
def chainPairs (bone_name : String) (space : AffineT) (C : Vec3) (L : ℚ) : Nat → List EditBone
  | 0 => []
  | n + 1 => chainPairs bone_name space C L n
      ++ [chainBoneAt bone_name space C L n, chainLocatorAt bone_name space L n]

/-- The block of vertices one duplication step is expected to append: fresh
consecutive identities from base, coordinates shifted by delta, weight 1 in
group index gidx on top of the copied template weights. -/
def blockVerts (delta : Vec3) (gidx : Nat) : Nat → List BMVert → List BMVert
  | _, [] => []
  | base, v :: rest =>
      { v with id := base, co := v.co + delta, dvert := dvertSet gidx 1 v.dvert }
        :: blockVerts delta gidx (base + 1) rest

/-- The blocks of vertices the duplication loop is expected to append for the
given bones, one block of template copies per bone. -/
def dupliBlocks (bone_space : AffineT) (p0 : Vec3) (groups : List String)
    (T : List BMVert) : Nat → List BoneNode → List BMVert
  | _, [] => []
  | base, b :: rest =>
      blockVerts (bone_space.lin.mulVec (Vec3.smul (1 / 2) (b.head_local + b.tail_local) - p0))
          ((vgIndex groups b.name).getD 0) base T
        ++ dupliBlocks bone_space p0 groups T (base + T.length) rest

/-- Identity well-formedness of a mesh state: vertex identities are distinct
and below the fresh-identity counter (the host's invariant for object
references). -/
def wfIds (m : MeshState) : Prop :=
  (m.verts.map (fun v => v.id)).Nodup ∧ ∀ v ∈ m.verts, v.id < m.next_id

/-- A deform map is clean at and above a bound: all group indices from the
bound up carry weight 0. -/
def cleanHigh (d : Nat → ℚ) (bound : Nat) : Prop :=
  ∀ j, bound ≤ j → d j = 0

/-! ## Concrete fixtures for instantiating the theorems -/

/-- A one-spline test curve. -/
def testCurve : Curve := { splines := [{ calc_length := 2 }], path_duration := 100 }

/-- A two-spline test curve (splines of lengths 1 and 1, total arc length 2). -/
def twoSplineCurve : Curve :=
  { splines := [{ calc_length := 1 }, { calc_length := 1 }], path_duration := 100 }

/-- A builder context holding the one-spline curve and an identity-placed
armature. -/
def testBuilderCtx : BuilderCtx :=
  { curve_objects := [("Curve", testCurve)]
    cursor := ⟨0, 0, 0⟩
    arm_name := "Armature"
    arm_matrix_world := AffineT.idT
    edit_bones := []
    pose_bones := [] }

/-- A builder context holding the two-spline curve. -/
def testBuilderCtx2 : BuilderCtx :=
  { curve_objects := [("Curve2", twoSplineCurve)]
    cursor := ⟨0, 0, 0⟩
    arm_name := "Armature"
    arm_matrix_world := AffineT.idT
    edit_bones := []
    pose_bones := [] }

/-- A builder context with no curve objects at all. -/
def emptyBuilderCtx : BuilderCtx :=
  { curve_objects := []
    cursor := ⟨0, 0, 0⟩
    arm_name := "Armature"
    arm_matrix_world := AffineT.idT
    edit_bones := []
    pose_bones := [] }

/-- A two-bone test chain: a root with one child. -/
def testChild : BoneNode := BoneNode.node "Bone.001" ⟨0, 2, 0⟩ ⟨0, 4, 0⟩ []

/-- Root of the two-bone test chain. -/
def testRoot : BoneNode := BoneNode.node "Bone" ⟨0, 0, 0⟩ ⟨0, 2, 0⟩ [testChild]

/-- A test armature object placed at the identity. -/
def testArm : ArmObj := { bones := [testRoot], matrix_world := AffineT.idT }

/-- A one-vertex test mesh whose single vertex is selected, carries no
weights, and sits at the root bone's midpoint. -/
def testMesh : MeshState :=
  { verts := [{ id := 0, co := ⟨0, 1, 0⟩, select := true, dvert := fun _ => 0 }]
    vertex_groups := []
    next_id := 1 }

/-- A replicator context wiring the test mesh to the test armature through an
armature modifier. -/
def testReplicatorCtx : ReplicatorCtx :=
  { modifiers := [{ type := "ARMATURE", object := some testArm }]
    mesh := testMesh
    mesh_matrix_world := AffineT.idT }

/-- A replicator context whose mesh has no armature modifier. -/
def bareReplicatorCtx : ReplicatorCtx :=
  { modifiers := []
    mesh := testMesh
    mesh_matrix_world := AffineT.idT }

/-! ## Vector and matrix algebra lemmas -/

theorem Vec3.ext3 {a b : Vec3} (hx : a.x = b.x) (hy : a.y = b.y) (hz : a.z = b.z) : a = b := by
  cases a; cases b; simp_all

@[simp] theorem Vec3.add_def (a b : Vec3) :
    a + b = ⟨a.x + b.x, a.y + b.y, a.z + b.z⟩ := rfl

@[simp] theorem Vec3.sub_def (a b : Vec3) :
    a - b = ⟨a.x - b.x, a.y - b.y, a.z - b.z⟩ := rfl

theorem Mat3.mulVec_add (A : Mat3) (u v : Vec3) :
    A.mulVec (u + v) = A.mulVec u + A.mulVec v := by
  apply Vec3.ext3 <;> simp [Mat3.mulVec] <;> ring

theorem Mat3.mulVec_mulVec (A B : Mat3) (v : Vec3) :
    A.mulVec (B.mulVec v) = (A.mul B).mulVec v := by
  apply Vec3.ext3 <;> simp [Mat3.mulVec, Mat3.mul] <;> ring

theorem Mat3.mul_assoc3 (A B C : Mat3) : (A.mul B).mul C = A.mul (B.mul C) := by
  cases A; cases B; cases C; simp [Mat3.mul]; refine ⟨by ring, by ring, by ring, by ring, by ring, by ring, by ring, by ring, by ring⟩

theorem Mat3.idM_mulVec (v : Vec3) : Mat3.idM.mulVec v = v := by
  apply Vec3.ext3 <;> simp [Mat3.mulVec, Mat3.idM]

theorem Mat3.mul_idM (A : Mat3) : A.mul Mat3.idM = A := by
  cases A; simp [Mat3.mul, Mat3.idM]

theorem Mat3.idM_mul (A : Mat3) : Mat3.idM.mul A = A := by
  cases A; simp [Mat3.mul, Mat3.idM]

theorem AffineT.apply_add (T : AffineT) (u w : Vec3) :
    T.apply (u + w) = T.apply u + T.lin.mulVec w := by
  apply Vec3.ext3 <;> simp [AffineT.apply, Mat3.mulVec] <;> ring

theorem vecSum_map_add (d : Vec3) (l : List Vec3) :
    vecSum (l.map (fun p => p + d)) = vecSum l + Vec3.smul (l.length : ℚ) d := by
  induction l with
  | nil => apply Vec3.ext3 <;> simp [vecSum, Vec3.zero, Vec3.smul]
  | cons a rest ih =>
    simp only [List.map_cons, vecSum, ih, List.length_cons]
    apply Vec3.ext3 <;> simp [Vec3.smul] <;> push_cast <;> ring

theorem centroid_map_add (d : Vec3) (l : List Vec3) (h : l ≠ []) :
    centroid (l.map (fun p => p + d)) = centroid l + d := by
  have hlen : (l.length : ℚ) ≠ 0 := by
    have : l.length ≠ 0 := by simpa [List.length_eq_zero] using h
    exact_mod_cast this
  simp only [centroid, List.length_map, vecSum_map_add]
  apply Vec3.ext3 <;> simp [Vec3.smul] <;> field_simp <;> ring

/-! ## Edit-bone loop characterization -/

theorem ebGet_name_of_mem {l : List EditBone} {nm : String}
    (h : ∃ b ∈ l, b.name = nm) : (ebGet l nm).map EditBone.name = some nm := by
  induction l with
  | nil => simp at h
  | cons b rest ih =>
    by_cases hb : b.name = nm
    · simp [ebGet, hb]
    · obtain ⟨w, hw, hwn⟩ := h
      rcases List.mem_cons.mp hw with hw2 | hw2
      · exact absurd (hw2 ▸ hwn) hb
      · simp only [ebGet, if_neg hb]
        exact ih ⟨w, hw2, hwn⟩

theorem chainPairs_length (bn : String) (sp : AffineT) (C : Vec3) (L : ℚ) (n : Nat) :
    (chainPairs bn sp C L n).length = 2 * n := by
  induction n with
  | zero => simp [chainPairs]
  | succ k ih => simp [chainPairs, ih]; omega

theorem buildEditBones_eq (bn : String) (sp : AffineT) (C : Vec3) (L : ℚ) :
    ∀ n init, buildEditBones bn sp C L n init = init ++ chainPairs bn sp C L n := by
  intro n
  induction n with
  | zero => intro init; simp [buildEditBones, chainPairs]
  | succ k ih =>
    intro init
    have hk : buildEditBones bn sp C L k init = init ++ chainPairs bn sp C L k := ih init
    simp only [buildEditBones, hk, addChainBone, chainPairs]
    rcases Nat.eq_zero_or_pos k with hk0 | hkpos
    · subst hk0
      simp [chainBoneAt, chainLocatorAt]
    · have hmem : ∃ b ∈ init ++ chainPairs bn sp C L k, b.name = get_bone_name bn (k - 1) := by
        obtain ⟨k', rfl⟩ : ∃ k', k = k' + 1 := ⟨k - 1, (Nat.succ_pred_eq_of_pos hkpos).symm⟩
        refine ⟨chainBoneAt bn sp C L k', ?_, rfl⟩
        simp [chainPairs]
      have hget := ebGet_name_of_mem hmem
      simp only [if_pos hkpos, hget, chainBoneAt, chainLocatorAt]
      simp [List.append_assoc, Nat.pos_iff_ne_zero.mp hkpos]

theorem chainPairs_get (bn : String) (sp : AffineT) (C : Vec3) (L : ℚ) :
    ∀ n i, i < n →
      (chainPairs bn sp C L n)[2 * i]? = some (chainBoneAt bn sp C L i) ∧
      (chainPairs bn sp C L n)[2 * i + 1]? = some (chainLocatorAt bn sp L i) := by
  intro n
  induction n with
  | zero => intro i hi; omega
  | succ k ih =>
    intro i hi
    have hlen := chainPairs_length bn sp C L k
    rcases Nat.lt_succ_iff_lt_or_eq.mp hi with hik | hik
    · have h1 : 2 * i < (chainPairs bn sp C L k).length := by omega
      have h2 : 2 * i + 1 < (chainPairs bn sp C L k).length := by omega
      constructor
      · rw [chainPairs, List.getElem?_append_left h1]
        exact (ih i hik).1
      · rw [chainPairs, List.getElem?_append_left h2]
        exact (ih i hik).2
    · subst hik
      constructor
      · rw [chainPairs, List.getElem?_append_right (by omega)]
        simp [hlen]
      · rw [chainPairs, List.getElem?_append_right (by omega)]
        have h3 : 2 * i + 1 - (chainPairs bn sp C L i).length = 1 := by omega
        simp [h3]

/-! ## Pose-bone and constraint-loop lemmas -/

theorem pbGet_append (l1 l2 : List PoseBone) (n : String) :
    pbGet (l1 ++ l2) n = match pbGet l1 n with
      | some b => some b
      | none => pbGet l2 n := by
  induction l1 with
  | nil => simp [pbGet]
  | cons b rest ih =>
    by_cases hb : b.name = n
    · simp [pbGet, hb]
    · simpa [pbGet, hb] using ih

theorem pbGet_none_of (l : List PoseBone) (n : String)
    (h : ∀ b ∈ l, b.name ≠ n) : pbGet l n = none := by
  induction l with
  | nil => rfl
  | cons b rest ih =>
    have hb : b.name ≠ n := h b (List.mem_cons_self b rest)
    simp only [pbGet, if_neg hb]
    exact ih (fun c hc => h c (List.mem_cons_of_mem b hc))

theorem chainPairs_mem (bn : String) (sp : AffineT) (C : Vec3) (L : ℚ) :
    ∀ n b, b ∈ chainPairs bn sp C L n →
      ∃ j, j < n ∧ (b = chainBoneAt bn sp C L j ∨ b = chainLocatorAt bn sp L j) := by
  intro n
  induction n with
  | zero => intro b hb; simp [chainPairs] at hb
  | succ k ih =>
    intro b hb
    simp only [chainPairs, List.mem_append, List.mem_cons, List.mem_singleton] at hb
    rcases hb with hb | hb | hb
    · obtain ⟨j, hj, hor⟩ := ih b hb
      exact ⟨j, Nat.lt_succ_of_lt hj, hor⟩
    · exact ⟨k, Nat.lt_succ_self k, Or.inl hb⟩
    · exact ⟨k, Nat.lt_succ_self k, Or.inr (by simpa using hb)⟩

theorem mirrorBones_chainPairs_main (bn : String) (sp : AffineT) (C : Vec3) (L : ℚ) (B : Nat)
    (hmm : ∀ i j, i < B → j < B → i ≠ j → get_bone_name bn i ≠ get_bone_name bn j)
    (hml : ∀ i j, i < B → j < B → get_bone_name bn i ≠ get_locator_name bn j) :
    ∀ n, n ≤ B → ∀ i, i < n →
      pbGet (mirrorBones (chainPairs bn sp C L n)) (get_bone_name bn i)
        = some { name := get_bone_name bn i, constraints := [] } := by
  intro n
  induction n with
  | zero => intro _ i hi; omega
  | succ k ih =>
    intro hB i hi
    have hsplit : mirrorBones (chainPairs bn sp C L (k + 1))
        = mirrorBones (chainPairs bn sp C L k)
          ++ [{ name := get_bone_name bn k, constraints := [] },
              { name := get_locator_name bn k, constraints := [] }] := by
      simp [chainPairs, mirrorBones, chainBoneAt, chainLocatorAt]
    rcases Nat.lt_succ_iff_lt_or_eq.mp hi with hik | hik
    · rw [hsplit, pbGet_append, ih (by omega) i hik]
    · subst hik
      have hnone : pbGet (mirrorBones (chainPairs bn sp C L i)) (get_bone_name bn i) = none := by
        apply pbGet_none_of
        intro pb hpb
        simp only [mirrorBones, List.mem_map] at hpb
        obtain ⟨eb, heb, rfl⟩ := hpb
        obtain ⟨j, hj, hor⟩ := chainPairs_mem bn sp C L i eb heb
        rcases hor with rfl | rfl
        · exact hmm j i (by omega) (by omega) (by omega)
        · exact fun hcontra => hml i j (by omega) (by omega) hcontra.symm
      rw [hsplit, pbGet_append, hnone]
      simp [pbGet]

theorem mirrorBones_chainPairs_loc (bn : String) (sp : AffineT) (C : Vec3) (L : ℚ) (B : Nat)
    (hll : ∀ i j, i < B → j < B → i ≠ j → get_locator_name bn i ≠ get_locator_name bn j)
    (hml : ∀ i j, i < B → j < B → get_bone_name bn i ≠ get_locator_name bn j) :
    ∀ n, n ≤ B → ∀ i, i < n →
      pbGet (mirrorBones (chainPairs bn sp C L n)) (get_locator_name bn i)
        = some { name := get_locator_name bn i, constraints := [] } := by
  intro n
  induction n with
  | zero => intro _ i hi; omega
  | succ k ih =>
    intro hB i hi
    have hsplit : mirrorBones (chainPairs bn sp C L (k + 1))
        = mirrorBones (chainPairs bn sp C L k)
          ++ [{ name := get_bone_name bn k, constraints := [] },
              { name := get_locator_name bn k, constraints := [] }] := by
      simp [chainPairs, mirrorBones, chainBoneAt, chainLocatorAt]
    rcases Nat.lt_succ_iff_lt_or_eq.mp hi with hik | hik
    · rw [hsplit, pbGet_append, ih (by omega) i hik]
    · subst hik
      have hnone : pbGet (mirrorBones (chainPairs bn sp C L i)) (get_locator_name bn i) = none := by
        apply pbGet_none_of
        intro pb hpb
        simp only [mirrorBones, List.mem_map] at hpb
        obtain ⟨eb, heb, rfl⟩ := hpb
        obtain ⟨j, hj, hor⟩ := chainPairs_mem bn sp C L i eb heb
        rcases hor with rfl | rfl
        · exact hml j i (by omega) (by omega)
        · exact hll j i (by omega) (by omega) (by omega)
      rw [hsplit, pbGet_append, hnone]
      have hne : get_bone_name bn i ≠ get_locator_name bn i := hml i i (by omega) (by omega)
      simp [pbGet, hne]

theorem pbGet_addConstraint_ne (n m : String) (c : Constraint) (pbs : List PoseBone)
    (h : m ≠ n) : pbGet (addConstraint n c pbs) m = pbGet pbs m := by
  induction pbs with
  | nil => rfl
  | cons pb rest ih =>
    have hnm : n ≠ m := fun he => h he.symm
    by_cases hpb : pb.name = n
    · have hm : pb.name ≠ m := by rw [hpb]; exact hnm
      simp [addConstraint, hpb, pbGet, hm, hnm]
    · by_cases hm : pb.name = m
      · simp [addConstraint, hpb, pbGet, hm, h]
      · simp [addConstraint, hpb, pbGet, hm, ih]

theorem pbGet_addConstraint_eq (n : String) (c : Constraint) (pbs : List PoseBone) :
    pbGet (addConstraint n c pbs) n
      = (pbGet pbs n).map (fun pb => { pb with constraints := pb.constraints ++ [c] }) := by
  induction pbs with
  | nil => rfl
  | cons pb rest ih =>
    by_cases hpb : pb.name = n
    · simp [addConstraint, hpb, pbGet]
    · simp [addConstraint, hpb, pbGet, ih]

theorem applyConstraints_unaffected (N : Nat) (bn an cn : String) (D : ℚ) :
    ∀ n pbs m, (∀ j, j < n → m ≠ get_locator_name bn j ∧ m ≠ get_bone_name bn j) →
      pbGet (applyConstraints N bn an cn D n pbs) m = pbGet pbs m := by
  intro n
  induction n with
  | zero => intro pbs m _; rfl
  | succ k ih =>
    intro pbs m h
    have hk := h k (Nat.lt_succ_self k)
    simp only [applyConstraints, constraintStep]
    rw [pbGet_addConstraint_ne _ _ _ _ hk.2, pbGet_addConstraint_ne _ _ _ _ hk.2,
        pbGet_addConstraint_ne _ _ _ _ hk.1]
    exact ih pbs m (fun j hj => h j (Nat.lt_succ_of_lt hj))

theorem applyConstraints_at (N : Nat) (bn an cn : String) (D : ℚ) (B : Nat)
    (hmm : ∀ i j, i < B → j < B → i ≠ j → get_bone_name bn i ≠ get_bone_name bn j)
    (hll : ∀ i j, i < B → j < B → i ≠ j → get_locator_name bn i ≠ get_locator_name bn j)
    (hml : ∀ i j, i < B → j < B → get_bone_name bn i ≠ get_locator_name bn j) :
    ∀ n, n ≤ B → ∀ pbs i, i < n →
      pbGet (applyConstraints N bn an cn D n pbs) (get_locator_name bn i)
        = (pbGet pbs (get_locator_name bn i)).map (fun pb =>
            { pb with constraints := pb.constraints
                ++ [Constraint.followPath cn ((i : ℚ) * D / (N : ℚ)) true "TRACK_NEGATIVE_Y" "UP_Z"] })
      ∧ pbGet (applyConstraints N bn an cn D n pbs) (get_bone_name bn i)
        = (pbGet pbs (get_bone_name bn i)).map (fun pb =>
            { pb with constraints := pb.constraints
                ++ [Constraint.copyLocation an (get_locator_name bn i),
                    Constraint.trackTo an (get_locator_name bn ((i + 1) % N)) true] }) := by
  intro n
  induction n with
  | zero => intro _ pbs i hi; omega
  | succ k ih =>
    intro hB pbs i hi
    rcases Nat.lt_succ_iff_lt_or_eq.mp hi with hik | hik
    · have hik' : i ≠ k := by omega
      have h1 : get_locator_name bn i ≠ get_locator_name bn k := hll i k (by omega) (by omega) hik'
      have h2 : get_locator_name bn i ≠ get_bone_name bn k := (hml k i (by omega) (by omega)).symm
      have h3 : get_bone_name bn i ≠ get_locator_name bn k := hml i k (by omega) (by omega)
      have h4 : get_bone_name bn i ≠ get_bone_name bn k := hmm i k (by omega) (by omega) hik'
      constructor
      · simp only [applyConstraints, constraintStep]
        rw [pbGet_addConstraint_ne _ _ _ _ h2, pbGet_addConstraint_ne _ _ _ _ h2,
            pbGet_addConstraint_ne _ _ _ _ h1]
        exact (ih (by omega) pbs i hik).1
      · simp only [applyConstraints, constraintStep]
        rw [pbGet_addConstraint_ne _ _ _ _ h4, pbGet_addConstraint_ne _ _ _ _ h4,
            pbGet_addConstraint_ne _ _ _ _ h3]
        exact (ih (by omega) pbs i hik).2
    · subst hik
      have hinner : ∀ m, (∀ j, j < i → m ≠ get_locator_name bn j ∧ m ≠ get_bone_name bn j) →
          pbGet (applyConstraints N bn an cn D i pbs) m = pbGet pbs m :=
        fun m h => applyConstraints_unaffected N bn an cn D i pbs m h
      have hloc_clean : pbGet (applyConstraints N bn an cn D i pbs) (get_locator_name bn i)
          = pbGet pbs (get_locator_name bn i) := by
        apply hinner
        intro j hj
        exact ⟨hll i j (by omega) (by omega) (by omega), (hml j i (by omega) (by omega)).symm⟩
      have hmain_clean : pbGet (applyConstraints N bn an cn D i pbs) (get_bone_name bn i)
          = pbGet pbs (get_bone_name bn i) := by
        apply hinner
        intro j hj
        exact ⟨hml i j (by omega) (by omega), hmm i j (by omega) (by omega) (by omega)⟩
      have hmlii : get_bone_name bn i ≠ get_locator_name bn i := hml i i (by omega) (by omega)
      constructor
      · simp only [applyConstraints, constraintStep]
        rw [pbGet_addConstraint_ne _ _ _ _ hmlii.symm, pbGet_addConstraint_ne _ _ _ _ hmlii.symm,
            pbGet_addConstraint_eq, hloc_clean]
      · simp only [applyConstraints, constraintStep]
        rw [pbGet_addConstraint_eq, pbGet_addConstraint_eq,
            pbGet_addConstraint_ne _ _ _ _ hmlii, hmain_clean]
        rw [Option.map_map]
        cases pbGet pbs (get_bone_name bn i) with
        | none => rfl
        | some pb => simp

/-! ## AddBoneChain.execute: success-path shape -/

theorem execute_success_shape (bone_count : Nat) (bone_name curve_enum : String)
    (ctx : BuilderCtx) (curve : Curve) (spline : Spline) (restSpl : List Spline)
    (hcurve : lookupCurve ctx.curve_objects curve_enum = some curve)
    (hsplines : curve.splines = spline :: restSpl) :
    AddBoneChain.execute bone_count bone_name curve_enum ctx
      = (OpResult.finished,
         { ctx with
             edit_bones := ctx.edit_bones
               ++ chainPairs bone_name ctx.arm_matrix_world.inverted ctx.cursor
                    (spline.calc_length / (bone_count : ℚ)) bone_count
             pose_bones := applyConstraints bone_count bone_name ctx.arm_name curve_enum
               curve.path_duration bone_count
               (ctx.pose_bones
                 ++ mirrorBones (chainPairs bone_name ctx.arm_matrix_world.inverted ctx.cursor
                      (spline.calc_length / (bone_count : ℚ)) bone_count)) }) := by
  simp only [AddBoneChain.execute, hcurve, hsplines,
    buildEditBones_eq, List.drop_left]

/-! ## Claim C2: bones created by a successful ChainBuilder run -/

/-- C2: for every bone count N ≥ 1, a successful ChainBuilder run creates
exactly N main bones and exactly N locator bones (2N new edit bones, the main
bone at offset 2i and its locator at offset 2i+1), main bone i is named
"{baseName}.{i:03d}" and parented to main bone i-1 for i > 0 with bone 0
unparented, and locator i is named "{baseName}.{i:03d}.Locator". -/
theorem claim_C2_chain_builder_bones (bone_count : Nat) (bone_name curve_enum : String)
    (ctx : BuilderCtx) (curve : Curve) (spline : Spline) (restSpl : List Spline)
    (hcurve : lookupCurve ctx.curve_objects curve_enum = some curve)
    (hsplines : curve.splines = spline :: restSpl)
    (hN : 1 ≤ bone_count) :
    (AddBoneChain.execute bone_count bone_name curve_enum ctx).2.edit_bones.length
        = ctx.edit_bones.length + 2 * bone_count
    ∧ ∀ i, i < bone_count →
      ((AddBoneChain.execute bone_count bone_name curve_enum ctx).2.edit_bones[ctx.edit_bones.length + 2 * i]?).map EditBone.name
          = some (get_bone_name bone_name i)
      ∧ ((AddBoneChain.execute bone_count bone_name curve_enum ctx).2.edit_bones[ctx.edit_bones.length + 2 * i]?).map EditBone.parent
          = some (if i = 0 then none else some (get_bone_name bone_name (i - 1)))
      ∧ ((AddBoneChain.execute bone_count bone_name curve_enum ctx).2.edit_bones[ctx.edit_bones.length + 2 * i + 1]?).map EditBone.name
          = some (get_locator_name bone_name i) := by
  rw [execute_success_shape bone_count bone_name curve_enum ctx curve spline restSpl hcurve hsplines]
  constructor
  · simp [chainPairs_length]
  · intro i hi
    have hpair := chainPairs_get bone_name ctx.arm_matrix_world.inverted ctx.cursor
      (spline.calc_length / (bone_count : ℚ)) bone_count i hi
    refine ⟨?_, ?_, ?_⟩
    · rw [show ctx.edit_bones.length + 2 * i = ctx.edit_bones.length + (2 * i) from rfl]
      simp only [List.getElem?_append_right (Nat.le_add_right ctx.edit_bones.length (2 * i)),
        Nat.add_sub_cancel_left]
      rw [hpair.1]
      simp [chainBoneAt]
    · simp only [List.getElem?_append_right (Nat.le_add_right ctx.edit_bones.length (2 * i)),
        Nat.add_sub_cancel_left]
      rw [hpair.1]
      simp [chainBoneAt]
    · have harr : ctx.edit_bones.length + 2 * i + 1 = ctx.edit_bones.length + (2 * i + 1) := by omega
      rw [harr]
      simp only [List.getElem?_append_right (Nat.le_add_right ctx.edit_bones.length (2 * i + 1)),
        Nat.add_sub_cancel_left]
      rw [hpair.2]
      simp [chainLocatorAt]

/-- Witness instantiating C2 at a concrete two-bone run. -/
theorem claim_C2_witness :
    lookupCurve testBuilderCtx.curve_objects "Curve" = some testCurve
    ∧ testCurve.splines = { calc_length := 2 } :: []
    ∧ 1 ≤ 2
    ∧ ((AddBoneChain.execute 2 "Chain" "Curve" testBuilderCtx).2.edit_bones.length
        = testBuilderCtx.edit_bones.length + 2 * 2
      ∧ ∀ i, i < 2 →
        ((AddBoneChain.execute 2 "Chain" "Curve" testBuilderCtx).2.edit_bones[testBuilderCtx.edit_bones.length + 2 * i]?).map EditBone.name
            = some (get_bone_name "Chain" i)
        ∧ ((AddBoneChain.execute 2 "Chain" "Curve" testBuilderCtx).2.edit_bones[testBuilderCtx.edit_bones.length + 2 * i]?).map EditBone.parent
            = some (if i = 0 then none else some (get_bone_name "Chain" (i - 1)))
        ∧ ((AddBoneChain.execute 2 "Chain" "Curve" testBuilderCtx).2.edit_bones[testBuilderCtx.edit_bones.length + 2 * i + 1]?).map EditBone.name
            = some (get_locator_name "Chain" i)) :=
  ⟨by rfl, by rfl, by omega,
   claim_C2_chain_builder_bones 2 "Chain" "Curve" testBuilderCtx testCurve
     { calc_length := 2 } [] (by rfl) (by rfl) (by omega)⟩

/-! ## Claim C7: bone and locator placement -/

/-- C7: for every i in [0, N), main bone i has head at
cursor + i * linkLength along the local x-axis and tail at
cursor + (i+1) * linkLength, both mapped by the inverse armature world
transform, and locator i has head at the image of the origin and tail at half
a link length along the same axis, likewise mapped. -/
theorem claim_C7_bone_placement (bone_count : Nat) (bone_name curve_enum : String)
    (ctx : BuilderCtx) (curve : Curve) (spline : Spline) (restSpl : List Spline) (L : ℚ)
    (hcurve : lookupCurve ctx.curve_objects curve_enum = some curve)
    (hsplines : curve.splines = spline :: restSpl)
    (hL : L = spline.calc_length / (bone_count : ℚ)) :
    ∀ i, i < bone_count →
      ((AddBoneChain.execute bone_count bone_name curve_enum ctx).2.edit_bones[ctx.edit_bones.length + 2 * i]?).map EditBone.head
          = some (ctx.arm_matrix_world.inverted.apply (ctx.cursor + Vec3.smul (i : ℚ) ⟨L, 0, 0⟩))
      ∧ ((AddBoneChain.execute bone_count bone_name curve_enum ctx).2.edit_bones[ctx.edit_bones.length + 2 * i]?).map EditBone.tail
          = some (ctx.arm_matrix_world.inverted.apply (ctx.cursor + Vec3.smul ((i : ℚ) + 1) ⟨L, 0, 0⟩))
      ∧ ((AddBoneChain.execute bone_count bone_name curve_enum ctx).2.edit_bones[ctx.edit_bones.length + 2 * i + 1]?).map EditBone.head
          = some (ctx.arm_matrix_world.inverted.apply ⟨0, 0, 0⟩)
      ∧ ((AddBoneChain.execute bone_count bone_name curve_enum ctx).2.edit_bones[ctx.edit_bones.length + 2 * i + 1]?).map EditBone.tail
          = some (ctx.arm_matrix_world.inverted.apply ⟨L / 2, 0, 0⟩) := by
  subst hL
  rw [execute_success_shape bone_count bone_name curve_enum ctx curve spline restSpl hcurve hsplines]
  intro i hi
  have hpair := chainPairs_get bone_name ctx.arm_matrix_world.inverted ctx.cursor
    (spline.calc_length / (bone_count : ℚ)) bone_count i hi
  have hhalf : spline.calc_length / (bone_count : ℚ) * (1 / 2)
      = spline.calc_length / (bone_count : ℚ) / 2 := by ring
  refine ⟨?_, ?_, ?_, ?_⟩
  · simp only [List.getElem?_append_right (Nat.le_add_right ctx.edit_bones.length (2 * i)),
      Nat.add_sub_cancel_left]
    rw [hpair.1]; simp [chainBoneAt]
  · simp only [List.getElem?_append_right (Nat.le_add_right ctx.edit_bones.length (2 * i)),
      Nat.add_sub_cancel_left]
    rw [hpair.1]; simp [chainBoneAt]
  · have harr : ctx.edit_bones.length + 2 * i + 1 = ctx.edit_bones.length + (2 * i + 1) := by omega
    rw [harr]
    simp only [List.getElem?_append_right (Nat.le_add_right ctx.edit_bones.length (2 * i + 1)),
      Nat.add_sub_cancel_left]
    rw [hpair.2]; simp [chainLocatorAt]
  · have harr : ctx.edit_bones.length + 2 * i + 1 = ctx.edit_bones.length + (2 * i + 1) := by omega
    rw [harr]
    simp only [List.getElem?_append_right (Nat.le_add_right ctx.edit_bones.length (2 * i + 1)),
      Nat.add_sub_cancel_left]
    rw [hpair.2]
    simp only [chainLocatorAt, Option.map_some']
    congr 1
    apply Vec3.ext3 <;> simp <;> ring

/-- Witness instantiating C7 at a concrete two-bone run. -/
theorem claim_C7_witness :
    lookupCurve testBuilderCtx.curve_objects "Curve" = some testCurve
    ∧ testCurve.splines = { calc_length := 2 } :: []
    ∧ (1 : ℚ) = ({ calc_length := 2 } : Spline).calc_length / ((2 : Nat) : ℚ)
    ∧ ∀ i, i < 2 →
      ((AddBoneChain.execute 2 "Chain" "Curve" testBuilderCtx).2.edit_bones[testBuilderCtx.edit_bones.length + 2 * i]?).map EditBone.head
          = some (testBuilderCtx.arm_matrix_world.inverted.apply (testBuilderCtx.cursor + Vec3.smul (i : ℚ) ⟨1, 0, 0⟩))
      ∧ ((AddBoneChain.execute 2 "Chain" "Curve" testBuilderCtx).2.edit_bones[testBuilderCtx.edit_bones.length + 2 * i]?).map EditBone.tail
          = some (testBuilderCtx.arm_matrix_world.inverted.apply (testBuilderCtx.cursor + Vec3.smul ((i : ℚ) + 1) ⟨1, 0, 0⟩))
      ∧ ((AddBoneChain.execute 2 "Chain" "Curve" testBuilderCtx).2.edit_bones[testBuilderCtx.edit_bones.length + 2 * i + 1]?).map EditBone.head
          = some (testBuilderCtx.arm_matrix_world.inverted.apply ⟨0, 0, 0⟩)
      ∧ ((AddBoneChain.execute 2 "Chain" "Curve" testBuilderCtx).2.edit_bones[testBuilderCtx.edit_bones.length + 2 * i + 1]?).map EditBone.tail
          = some (testBuilderCtx.arm_matrix_world.inverted.apply ⟨(1 : ℚ) / 2, 0, 0⟩) :=
  ⟨by rfl, by rfl, by norm_num,
   claim_C7_bone_placement 2 "Chain" "Curve" testBuilderCtx testCurve
     { calc_length := 2 } [] 1 (by rfl) (by rfl) (by norm_num)⟩

/-! ## Claim C3: per-link length (corrected: first spline, not total) -/

/-- C3 counterexample: on a curve with two splines of length 1 each (total
arc length 2) and N = 1, the link length the code computes — observable as
bone 0's head-to-tail x-extent under an identity armature transform and a
zero cursor — is 1, not the total arc length divided by N, which is 2. -/
theorem claim_C3_counterexample :
    ((AddBoneChain.execute 1 "Chain" "Curve2" testBuilderCtx2).2.edit_bones[0]?).map
        (fun b => b.tail.x - b.head.x) = some 1
    ∧ curveTotalArcLength twoSplineCurve / ((1 : Nat) : ℚ) = 2
    ∧ (1 : ℚ) ≠ 2 := by
  refine ⟨?_, by norm_num [curveTotalArcLength, twoSplineCurve], by norm_num⟩
  rw [execute_success_shape 1 "Chain" "Curve2" testBuilderCtx2 twoSplineCurve
    { calc_length := 1 } [{ calc_length := 1 }] (by rfl) (by rfl)]
  norm_num [chainPairs, chainBoneAt, chainLocatorAt, testBuilderCtx2, AffineT.inverted,
    AffineT.apply, AffineT.idT, Mat3.inv, Mat3.idM, Mat3.mulVec, Mat3.det, Vec3.smul, Vec3.zero]

/-- C3 amended: ChainBuilder computes the per-link length as the FIRST
spline's arc length divided by N (not the curve's total arc length, which
differs on multi-spline curves), so that linkLength * N equals the first
spline's arc length exactly in the rational model; the computed link length
is the one the bone ladder is built from. -/
theorem claim_C3_link_length (bone_count : Nat) (bone_name curve_enum : String)
    (ctx : BuilderCtx) (curve : Curve) (spline : Spline) (restSpl : List Spline) (L : ℚ)
    (hcurve : lookupCurve ctx.curve_objects curve_enum = some curve)
    (hsplines : curve.splines = spline :: restSpl)
    (hL : L = spline.calc_length / (bone_count : ℚ))
    (hN : 1 ≤ bone_count) :
    L * (bone_count : ℚ) = spline.calc_length
    ∧ ((AddBoneChain.execute bone_count bone_name curve_enum ctx).2.edit_bones[ctx.edit_bones.length]?).map EditBone.tail
        = some (ctx.arm_matrix_world.inverted.apply (ctx.cursor + Vec3.smul 1 ⟨L, 0, 0⟩)) := by
  have hN0 : (bone_count : ℚ) ≠ 0 := by
    have : bone_count ≠ 0 := by omega
    exact_mod_cast this
  constructor
  · rw [hL]
    exact div_mul_cancel₀ spline.calc_length hN0
  · have h0 : 0 < bone_count := hN
    subst hL
    rw [execute_success_shape bone_count bone_name curve_enum ctx curve spline restSpl hcurve hsplines]
    have hpair := (chainPairs_get bone_name ctx.arm_matrix_world.inverted ctx.cursor
      (spline.calc_length / (bone_count : ℚ)) bone_count 0 h0).1
    norm_num at hpair
    simp only [List.getElem?_append_right (Nat.le_refl ctx.edit_bones.length), Nat.sub_self]
    rw [hpair]
    simp [chainBoneAt]

/-- Witness instantiating the amended C3 at a concrete one-bone run. -/
theorem claim_C3_witness :
    lookupCurve testBuilderCtx.curve_objects "Curve" = some testCurve
    ∧ testCurve.splines = { calc_length := 2 } :: []
    ∧ (2 : ℚ) = ({ calc_length := 2 } : Spline).calc_length / ((1 : Nat) : ℚ)
    ∧ 1 ≤ 1
    ∧ ((2 : ℚ) * ((1 : Nat) : ℚ) = ({ calc_length := 2 } : Spline).calc_length
      ∧ ((AddBoneChain.execute 1 "Chain" "Curve" testBuilderCtx).2.edit_bones[testBuilderCtx.edit_bones.length]?).map EditBone.tail
          = some (testBuilderCtx.arm_matrix_world.inverted.apply (testBuilderCtx.cursor + Vec3.smul 1 ⟨2, 0, 0⟩))) :=
  ⟨by rfl, by rfl, by norm_num, by omega,
   claim_C3_link_length 1 "Chain" "Curve" testBuilderCtx testCurve
     { calc_length := 2 } [] 2 (by rfl) (by rfl) (by norm_num) (by omega)⟩

/-! ## Claim C4: constraints attached per link -/

/-- C4: after a successful run with bone count N, locator i carries exactly
one constraint, a follow-path targeting the curve with offset
i * path_duration / N, curve-follow enabled and fixed forward/up axes, and
main bone i carries exactly two constraints: a copy-location targeting
locator i and a track-to targeting locator (i+1) mod N (both through the
armature object), so the last bone tracks the first locator. -/
theorem claim_C4_constraints (bone_count : Nat) (bone_name curve_enum : String)
    (ctx : BuilderCtx) (curve : Curve) (spline : Spline) (restSpl : List Spline)
    (hcurve : lookupCurve ctx.curve_objects curve_enum = some curve)
    (hsplines : curve.splines = spline :: restSpl)
    (hmm : ∀ i j, i < bone_count → j < bone_count → i ≠ j →
      get_bone_name bone_name i ≠ get_bone_name bone_name j)
    (hll : ∀ i j, i < bone_count → j < bone_count → i ≠ j →
      get_locator_name bone_name i ≠ get_locator_name bone_name j)
    (hml : ∀ i j, i < bone_count → j < bone_count →
      get_bone_name bone_name i ≠ get_locator_name bone_name j)
    (hfresh : ∀ pb ∈ ctx.pose_bones, ∀ i, i < bone_count →
      pb.name ≠ get_bone_name bone_name i ∧ pb.name ≠ get_locator_name bone_name i) :
    ∀ i, i < bone_count →
      pbGet (AddBoneChain.execute bone_count bone_name curve_enum ctx).2.pose_bones
          (get_locator_name bone_name i)
        = some { name := get_locator_name bone_name i
                 constraints := [Constraint.followPath curve_enum
                   ((i : ℚ) * curve.path_duration / (bone_count : ℚ)) true
                   "TRACK_NEGATIVE_Y" "UP_Z"] }
      ∧ pbGet (AddBoneChain.execute bone_count bone_name curve_enum ctx).2.pose_bones
          (get_bone_name bone_name i)
        = some { name := get_bone_name bone_name i
                 constraints := [Constraint.copyLocation ctx.arm_name (get_locator_name bone_name i),
                   Constraint.trackTo ctx.arm_name
                     (get_locator_name bone_name ((i + 1) % bone_count)) true] } := by
  rw [execute_success_shape bone_count bone_name curve_enum ctx curve spline restSpl hcurve hsplines]
  intro i hi
  have hat := applyConstraints_at bone_count bone_name ctx.arm_name curve_enum
    curve.path_duration bone_count hmm hll hml bone_count (Nat.le_refl bone_count)
    (ctx.pose_bones ++ mirrorBones (chainPairs bone_name ctx.arm_matrix_world.inverted ctx.cursor
      (spline.calc_length / (bone_count : ℚ)) bone_count)) i hi
  have hold_loc : pbGet ctx.pose_bones (get_locator_name bone_name i) = none :=
    pbGet_none_of _ _ (fun pb hpb => (hfresh pb hpb i hi).2)
  have hold_main : pbGet ctx.pose_bones (get_bone_name bone_name i) = none :=
    pbGet_none_of _ _ (fun pb hpb => (hfresh pb hpb i hi).1)
  have hmir_loc := mirrorBones_chainPairs_loc bone_name ctx.arm_matrix_world.inverted ctx.cursor
    (spline.calc_length / (bone_count : ℚ)) bone_count hll hml bone_count
    (Nat.le_refl bone_count) i hi
  have hmir_main := mirrorBones_chainPairs_main bone_name ctx.arm_matrix_world.inverted ctx.cursor
    (spline.calc_length / (bone_count : ℚ)) bone_count hmm hml bone_count
    (Nat.le_refl bone_count) i hi
  have hbase_loc : pbGet (ctx.pose_bones ++ mirrorBones (chainPairs bone_name
      ctx.arm_matrix_world.inverted ctx.cursor (spline.calc_length / (bone_count : ℚ)) bone_count))
      (get_locator_name bone_name i)
      = some { name := get_locator_name bone_name i, constraints := [] } := by
    rw [pbGet_append, hold_loc, hmir_loc]
  have hbase_main : pbGet (ctx.pose_bones ++ mirrorBones (chainPairs bone_name
      ctx.arm_matrix_world.inverted ctx.cursor (spline.calc_length / (bone_count : ℚ)) bone_count))
      (get_bone_name bone_name i)
      = some { name := get_bone_name bone_name i, constraints := [] } := by
    rw [pbGet_append, hold_main, hmir_main]
  constructor
  · rw [hat.1, hbase_loc]
    simp
  · rw [hat.2, hbase_main]
    simp

/-- Witness instantiating C4 at a concrete two-bone run. -/
theorem claim_C4_witness :
    lookupCurve testBuilderCtx.curve_objects "Curve" = some testCurve
    ∧ testCurve.splines = { calc_length := 2 } :: []
    ∧ (∀ i j, i < 2 → j < 2 → i ≠ j → get_bone_name "Chain" i ≠ get_bone_name "Chain" j)
    ∧ (∀ i j, i < 2 → j < 2 → i ≠ j → get_locator_name "Chain" i ≠ get_locator_name "Chain" j)
    ∧ (∀ i j, i < 2 → j < 2 → get_bone_name "Chain" i ≠ get_locator_name "Chain" j)
    ∧ (∀ i, i < 2 →
        pbGet (AddBoneChain.execute 2 "Chain" "Curve" testBuilderCtx).2.pose_bones
            (get_locator_name "Chain" i)
          = some { name := get_locator_name "Chain" i
                   constraints := [Constraint.followPath "Curve"
                     ((i : ℚ) * testCurve.path_duration / ((2 : Nat) : ℚ)) true
                     "TRACK_NEGATIVE_Y" "UP_Z"] }
        ∧ pbGet (AddBoneChain.execute 2 "Chain" "Curve" testBuilderCtx).2.pose_bones
            (get_bone_name "Chain" i)
          = some { name := get_bone_name "Chain" i
                   constraints := [Constraint.copyLocation testBuilderCtx.arm_name (get_locator_name "Chain" i),
                     Constraint.trackTo testBuilderCtx.arm_name
                       (get_locator_name "Chain" ((i + 1) % 2)) true] }) :=
  have hmm : ∀ i j, i < 2 → j < 2 → i ≠ j → get_bone_name "Chain" i ≠ get_bone_name "Chain" j := by
    intro i j hi hj hne
    interval_cases i <;> interval_cases j <;> first | exact absurd rfl hne | decide
  have hll : ∀ i j, i < 2 → j < 2 → i ≠ j → get_locator_name "Chain" i ≠ get_locator_name "Chain" j := by
    intro i j hi hj hne
    interval_cases i <;> interval_cases j <;> first | exact absurd rfl hne | decide
  have hml : ∀ i j, i < 2 → j < 2 → get_bone_name "Chain" i ≠ get_locator_name "Chain" j := by
    intro i j hi hj
    interval_cases i <;> interval_cases j <;> decide
  ⟨by rfl, by rfl, hmm, hll, hml,
   claim_C4_constraints 2 "Chain" "Curve" testBuilderCtx testCurve { calc_length := 2 } []
     (by rfl) (by rfl) hmm hll hml
     (by intro pb hpb; cases hpb)⟩

/-! ## Claim C8: ChainBuilder failure paths perform no mutation -/

/-- C8: when the curve reference does not resolve, or the resolved curve has
zero splines, ChainBuilder reports an ERROR_INVALID_INPUT failure, returns
cancelled, and leaves the whole context — in particular the armature's edit
bones and pose-bone constraint lists — unchanged. -/
theorem claim_C8_builder_failure (bone_count : Nat) (bone_name curve_enum : String)
    (ctx : BuilderCtx)
    (h : lookupCurve ctx.curve_objects curve_enum = none
      ∨ ∃ curve, lookupCurve ctx.curve_objects curve_enum = some curve ∧ curve.splines = []) :
    (∃ msg, (AddBoneChain.execute bone_count bone_name curve_enum ctx).1
        = OpResult.cancelled "ERROR_INVALID_INPUT" msg)
    ∧ (AddBoneChain.execute bone_count bone_name curve_enum ctx).2 = ctx := by
  rcases h with h | ⟨curve, hc, hs⟩
  · refine ⟨⟨"Invalid curve object " ++ curve_enum, ?_⟩, ?_⟩ <;>
      simp only [AddBoneChain.execute, h]
  · refine ⟨⟨"Curve object must have at least one spline", ?_⟩, ?_⟩ <;>
      simp only [AddBoneChain.execute, hc, hs]

/-- Witness instantiating C8 on a context with no curve objects. -/
theorem claim_C8_witness :
    (lookupCurve emptyBuilderCtx.curve_objects "Missing" = none
      ∨ ∃ curve, lookupCurve emptyBuilderCtx.curve_objects "Missing" = some curve
          ∧ curve.splines = [])
    ∧ ((∃ msg, (AddBoneChain.execute 3 "Chain" "Missing" emptyBuilderCtx).1
          = OpResult.cancelled "ERROR_INVALID_INPUT" msg)
      ∧ (AddBoneChain.execute 3 "Chain" "Missing" emptyBuilderCtx).2 = emptyBuilderCtx) :=
  ⟨Or.inl rfl, claim_C8_builder_failure 3 "Chain" "Missing" emptyBuilderCtx (Or.inl rfl)⟩

/-! ## Claim C9: ChainMeshReplicator failure paths perform no mutation -/

/-- C9: when no armature object can be resolved from the mesh's modifiers, or
the chosen root bone name does not resolve to a bone of that armature,
CreateChainMeshArray reports an ERROR_INVALID_CONTEXT failure, returns
cancelled, and leaves the mesh — vertex groups and geometry — unchanged. -/
theorem claim_C9_replicator_failure (rootbone_enum : String) (ctx : ReplicatorCtx)
    (h : get_armature_object ctx.modifiers = none
      ∨ ∃ arm_obj, get_armature_object ctx.modifiers = some arm_obj
          ∧ findBone arm_obj.bones rootbone_enum = none) :
    (∃ msg, (CreateChainMeshArray.execute rootbone_enum ctx).1
        = OpResult.cancelled "ERROR_INVALID_CONTEXT" msg)
    ∧ (CreateChainMeshArray.execute rootbone_enum ctx).2 = ctx.mesh := by
  rcases h with h | ⟨arm_obj, ha, hb⟩
  · refine ⟨⟨"Could not find armature modifier or object", ?_⟩, ?_⟩ <;>
      simp only [CreateChainMeshArray.execute, h]
  · refine ⟨⟨"Could not find root bone " ++ rootbone_enum, ?_⟩, ?_⟩ <;>
      simp only [CreateChainMeshArray.execute, ha, hb]

/-- Witness instantiating C9 on a mesh without an armature modifier. -/
theorem claim_C9_witness :
    (get_armature_object bareReplicatorCtx.modifiers = none
      ∨ ∃ arm_obj, get_armature_object bareReplicatorCtx.modifiers = some arm_obj
          ∧ findBone arm_obj.bones "Bone" = none)
    ∧ ((∃ msg, (CreateChainMeshArray.execute "Bone" bareReplicatorCtx).1
          = OpResult.cancelled "ERROR_INVALID_CONTEXT" msg)
      ∧ (CreateChainMeshArray.execute "Bone" bareReplicatorCtx).2 = bareReplicatorCtx.mesh) :=
  ⟨Or.inl rfl, claim_C9_replicator_failure "Bone" bareReplicatorCtx (Or.inl rfl)⟩

/-! ## Claim C6: the deform chain is the first-child orbit -/

/-- C6: the deform chain computed by the replicator's chain walk is exactly
the sequence obtained by starting at the root and iterating "first child":
the k-th element of the chain is the k-fold first-child of the root, for
every k (both sides are none past the first childless bone), so a bone is in
the chain iff it is reachable from the root by first-child steps alone, and
bones reachable only through non-first children are never included. -/
theorem claim_C6_first_child_chain (root : BoneNode) :
    (∀ k : Nat, (chainWalk root)[k]? = iterFirstChild k root)
    ∧ (∀ b : BoneNode, b ∈ chainWalk root ↔ ∃ k, iterFirstChild k root = some b) := by
  have hget : ∀ (k : Nat) (b : BoneNode), (chainWalk b)[k]? = iterFirstChild k b := by
    intro k
    induction k with
    | zero =>
      intro b
      cases b with
      | node n h t cs =>
        cases cs with
        | nil => simp [chainWalk, iterFirstChild]
        | cons c rest => simp [chainWalk, iterFirstChild]
    | succ k ih =>
      intro b
      cases b with
      | node n h t cs =>
        cases cs with
        | nil => simp [chainWalk, iterFirstChild, BoneNode.children]
        | cons c rest =>
          simp only [chainWalk, iterFirstChild, BoneNode.children, List.getElem?_cons_succ]
          exact ih c
  refine ⟨fun k => hget k root, ?_⟩
  intro b
  rw [List.mem_iff_getElem?]
  constructor
  · rintro ⟨k, hk⟩
    exact ⟨k, by rw [← hget k root, hk]⟩
  · rintro ⟨k, hk⟩
    exact ⟨k, by rw [hget k root, hk]⟩

/-! ## Claim C10: chain-walk termination and boundedness -/

theorem chainWalk_length_le_size (b : BoneNode) : (chainWalk b).length ≤ b.size := by
  induction b using chainWalk.induct with
  | case1 n h t => simp [chainWalk, BoneNode.size, sizeListBN]
  | case2 n h t c rest ih =>
    simp only [chainWalk, List.length_cons, BoneNode.size, sizeListBN]
    omega

theorem chainWalk_names_sublist (b : BoneNode) :
    ((chainWalk b).map BoneNode.name).Sublist b.allNames := by
  induction b using chainWalk.induct with
  | case1 n h t => simp [chainWalk, BoneNode.allNames, allNamesListBN, BoneNode.name]
  | case2 n h t c rest ih =>
    simp only [chainWalk, List.map_cons, BoneNode.allNames, allNamesListBN, BoneNode.name]
    exact List.Sublist.cons₂ _ (ih.trans (List.sublist_append_left _ _))

theorem chainWalkFuel_eq (fuel : Nat) :
    ∀ b : BoneNode, b.size ≤ fuel → chainWalkFuel fuel b = some (chainWalk b) := by
  induction fuel with
  | zero =>
    intro b hb
    cases b with
    | node n h t cs => simp [BoneNode.size] at hb
  | succ f ih =>
    intro b hb
    cases b with
    | node n h t cs =>
      cases cs with
      | nil => simp [chainWalkFuel, chainWalk, BoneNode.children]
      | cons c rest =>
        have hc : c.size ≤ f := by
          simp only [BoneNode.size, sizeListBN] at hb
          omega
        simp only [chainWalkFuel, BoneNode.children, ih c hc, chainWalk, Option.map_some']

theorem findBone_size_le :
    ∀ (bs : List BoneNode) (nm : String) (r : BoneNode), findBone bs nm = some r →
      r.size ≤ sizeListBN bs ∧ r.allNames.Sublist (allNamesListBN bs) := by
  intro bs nm
  induction bs, nm using findBone.induct with
  | case1 x => intro r hr; simp [findBone] at hr
  | case2 h t cs rest n =>
    intro r hr
    rw [findBone, if_pos rfl] at hr
    cases hr
    constructor
    · simp only [sizeListBN]
      omega
    · simp only [allNamesListBN]
      exact List.sublist_append_left _ _
  | case3 bn h t cs rest n hne r0 hr0 ih =>
    intro r hr
    rw [findBone, if_neg hne, hr0] at hr
    cases hr
    obtain ⟨hsz, hsub⟩ := ih r0 hr0
    constructor
    · simp only [sizeListBN, BoneNode.size]
      omega
    · refine hsub.trans ?_
      simp only [allNamesListBN, BoneNode.allNames]
      exact ((List.sublist_cons_self _ _).trans (List.sublist_append_left _ _))
  | case4 bn h t cs rest n hne hr0 ih1 ih2 =>
    intro r hr
    rw [findBone, if_neg hne, hr0] at hr
    obtain ⟨hsz, hsub⟩ := ih2 r hr
    constructor
    · simp only [sizeListBN]
      omega
    · simp only [allNamesListBN]
      exact hsub.trans (List.sublist_append_right _ _)

/-- C10: for a root resolved inside a finite armature bone hierarchy with
distinct bone names, the chain walk terminates within a number of loop
iterations bounded by the armature's total bone count (the fuel-bounded
while-loop reading reaches its fixed point with that much fuel), and the
resulting chain has no repeated bones and length at most the total number of
bones. -/
theorem claim_C10_chain_walk_termination (arm_bones : List BoneNode)
    (rootbone_enum : String) (root : BoneNode)
    (hroot : findBone arm_bones rootbone_enum = some root)
    (hnames : (allNamesListBN arm_bones).Nodup) :
    (chainWalk root).length ≤ sizeListBN arm_bones
    ∧ ((chainWalk root).map BoneNode.name).Nodup
    ∧ chainWalkFuel (sizeListBN arm_bones) root = some (chainWalk root) := by
  obtain ⟨hsz, hsub⟩ := findBone_size_le arm_bones rootbone_enum root hroot
  refine ⟨(chainWalk_length_le_size root).trans hsz, ?_, ?_⟩
  · exact (hnames.sublist hsub).sublist (chainWalk_names_sublist root)
  · exact chainWalkFuel_eq (sizeListBN arm_bones) root hsz

/-- Witness instantiating C10 at the concrete two-bone armature. -/
theorem claim_C10_witness :
    findBone testArm.bones "Bone" = some testRoot
    ∧ (allNamesListBN testArm.bones).Nodup
    ∧ ((chainWalk testRoot).length ≤ sizeListBN testArm.bones
      ∧ ((chainWalk testRoot).map BoneNode.name).Nodup
      ∧ chainWalkFuel (sizeListBN testArm.bones) testRoot = some (chainWalk testRoot)) :=
  ⟨by simp [findBone, testArm, testRoot, testChild, BoneNode.name],
   by simp [allNamesListBN, BoneNode.allNames, testArm, testRoot, testChild],
   claim_C10_chain_walk_termination testArm.bones "Bone" testRoot
     (by simp [findBone, testArm, testRoot, testChild, BoneNode.name])
     (by simp [allNamesListBN, BoneNode.allNames, testArm, testRoot, testChild])⟩

/-! ## Vertex-group index lemmas -/

theorem vgIndex_none_iff (l : List String) (n : String) :
    vgIndex l n = none ↔ ¬ n ∈ l := by
  induction l with
  | nil => simp [vgIndex]
  | cons g rest ih =>
    by_cases hg : g = n
    · simp [vgIndex, hg]
    · simp only [vgIndex, if_neg hg, Option.map_eq_none', ih, List.mem_cons, not_or]
      constructor
      · intro h
        exact ⟨fun he => hg he.symm, h⟩
      · intro h
        exact h.2

theorem vgIndex_some_lt (l : List String) (n : String) :
    ∀ k, vgIndex l n = some k → k < l.length := by
  induction l with
  | nil => intro k hk; simp [vgIndex] at hk
  | cons g rest ih =>
    intro k hk
    by_cases hg : g = n
    · rw [vgIndex, if_pos hg] at hk
      cases hk
      simp
    · simp only [vgIndex, if_neg hg, Option.map_eq_some'] at hk
      obtain ⟨k0, hk0, rfl⟩ := hk
      have := ih k0 hk0
      simp only [List.length_cons]
      omega

theorem vgIndex_append_left (l1 l2 : List String) (n : String) (k : Nat)
    (h : vgIndex l1 n = some k) : vgIndex (l1 ++ l2) n = some k := by
  induction l1 generalizing k with
  | nil => simp [vgIndex] at h
  | cons g rest ih =>
    by_cases hg : g = n
    · simp [vgIndex, hg] at h ⊢
      omega
    · simp only [vgIndex, if_neg hg, Option.map_eq_some'] at h
      obtain ⟨k0, hk0, rfl⟩ := h
      simp only [List.cons_append, vgIndex, if_neg hg, List.append_eq, ih k0 hk0,
        Option.map_some']

theorem vgIndex_append_of_not_mem (l1 l2 : List String) (n : String)
    (h : ¬ n ∈ l1) : vgIndex (l1 ++ l2) n = (vgIndex l2 n).map (fun k => k + l1.length) := by
  induction l1 with
  | nil => simp
  | cons g rest ih =>
    have hg : g ≠ n := fun he => h (he ▸ List.mem_cons_self g rest)
    have hn : ¬ n ∈ rest := fun hm => h (List.mem_cons_of_mem g hm)
    simp only [List.cons_append, vgIndex, if_neg hg, List.append_eq, ih hn]
    cases vgIndex l2 n with
    | none => rfl
    | some k => simp only [Option.map_some', Option.some_inj, List.length_cons]; omega

theorem vgIndex_mem (l : List String) (n : String) (h : n ∈ l) :
    ∃ k, vgIndex l n = some k := by
  induction l with
  | nil => simp at h
  | cons g rest ih =>
    by_cases hg : g = n
    · exact ⟨0, by simp [vgIndex, hg]⟩
    · have hn : n ∈ rest := by
        rcases List.mem_cons.mp h with h1 | h1
        · exact absurd h1.symm hg
        · exact h1
      obtain ⟨k, hk⟩ := ih hn
      exact ⟨k + 1, by simp [vgIndex, hg, hk]⟩

theorem vgIndex_nodup_get (l : List String) (hnd : l.Nodup) :
    ∀ j nm, l[j]? = some nm → vgIndex l nm = some j := by
  induction l with
  | nil => intro j nm h; simp at h
  | cons g rest ih =>
    intro j nm h
    cases j with
    | zero =>
      simp only [List.getElem?_cons_zero, Option.some_inj] at h
      simp [vgIndex, h]
    | succ j0 =>
      simp only [List.getElem?_cons_succ] at h
      have hmem : nm ∈ rest := List.getElem?_mem h
      have hg : g ≠ nm := by
        intro he
        exact (List.nodup_cons.mp hnd).1 (he ▸ hmem)
      simp only [vgIndex, if_neg hg, ih (List.nodup_cons.mp hnd).2 j0 nm h, Option.map_some']

theorem vgIndex_eraseIdx (l : List String) (n : String) (hnd : l.Nodup) :
    ∀ k, vgIndex l n = some k → l.eraseIdx k = l.filter (fun g => g ≠ n) := by
  induction l with
  | nil => intro k hk; simp [vgIndex] at hk
  | cons g rest ih =>
    intro k hk
    by_cases hg : g = n
    · simp only [vgIndex, if_pos hg, Option.some_inj] at hk
      subst hk
      subst hg
      have : ∀ x ∈ rest, x ≠ g := fun x hx he => (List.nodup_cons.mp hnd).1 (he ▸ hx)
      simp only [List.eraseIdx_cons_zero, List.filter_cons]
      simp only [decide_not, decide_eq_true_eq]
      rw [if_neg (by simp)]
      symm
      rw [List.filter_eq_self]
      intro a ha
      simpa using this a ha
    · simp only [vgIndex, if_neg hg, Option.map_eq_some'] at hk
      obtain ⟨k0, hk0, rfl⟩ := hk
      simp only [List.eraseIdx_cons_succ, List.filter_cons]
      rw [ih (List.nodup_cons.mp hnd).2 k0 hk0]
      rw [if_pos (by simpa using hg)]

/-! ## Vertex-group rebuild characterization -/

theorem cleanHigh_remap (d : Nat → ℚ) (B k : Nat) (hk : k < B)
    (h : cleanHigh d B) : cleanHigh (remapDvert k d) (B - 1) := by
  intro j hj
  have hjk : ¬ j < k := by omega
  simp only [remapDvert, if_neg hjk]
  exact h (j + 1) (by omega)

theorem cleanHigh_mono (d : Nat → ℚ) (B B2 : Nat) (hB : B ≤ B2)
    (h : cleanHigh d B) : cleanHigh d B2 :=
  fun j hj => h j (le_trans hB hj)

theorem rebuildVGroups_append (l : List BoneNode) (b : BoneNode) :
    ∀ m, rebuildVGroups (l ++ [b]) m = rebuildVGroup b.name (rebuildVGroups l m) := by
  induction l with
  | nil => intro m; rfl
  | cons c rest ih =>
    intro m
    simp only [List.cons_append, rebuildVGroups]
    exact ih (rebuildVGroup c.name m)

theorem rebuildVGroups_spec (bones : List BoneNode) (m : MeshState)
    (hg : m.vertex_groups.Nodup) (hbn : (bones.map BoneNode.name).Nodup) :
    (rebuildVGroups bones m).vertex_groups
        = m.vertex_groups.filter (fun g => ¬ g ∈ bones.map BoneNode.name)
            ++ bones.map BoneNode.name
    ∧ (∃ F : (Nat → ℚ) → Nat → ℚ,
        (rebuildVGroups bones m).verts = m.verts.map (fun v => { v with dvert := F v.dvert }))
    ∧ (rebuildVGroups bones m).next_id = m.next_id
    ∧ ((∀ v ∈ m.verts, cleanHigh v.dvert m.vertex_groups.length) →
        ∀ v ∈ (rebuildVGroups bones m).verts,
          cleanHigh v.dvert
            (m.vertex_groups.filter (fun g => ¬ g ∈ bones.map BoneNode.name)).length) := by
  induction bones using List.reverseRecOn with
  | nil =>
    have hfilter : m.vertex_groups.filter (fun g => ¬ g ∈ ([] : List BoneNode).map BoneNode.name)
        = m.vertex_groups := by
      rw [List.filter_eq_self]
      intro a _
      simp
    refine ⟨by simp [rebuildVGroups, hfilter], ⟨fun d => d, by simp [rebuildVGroups]⟩,
      rfl, ?_⟩
    intro hc v hv
    rw [hfilter]
    exact hc v hv
  | append_singleton bs b ih =>
    have hnames : (bs ++ [b]).map BoneNode.name = bs.map BoneNode.name ++ [b.name] := by
      simp
    have hbn' : (bs.map BoneNode.name).Nodup := by
      rw [hnames] at hbn
      exact (List.nodup_append.mp hbn).1
    have hbnotin : ¬ b.name ∈ bs.map BoneNode.name := by
      rw [hnames] at hbn
      have hd := (List.nodup_append.mp hbn).2.2
      intro hmem
      exact hd hmem (List.mem_singleton_self b.name)
    obtain ⟨ihg, ⟨F0, ihverts⟩, ihid, ihclean⟩ := ih hbn'
    rw [rebuildVGroups_append]
    set ns := bs.map BoneNode.name with hns
    set Fbs := m.vertex_groups.filter (fun g => ¬ g ∈ ns) with hFbs
    have hFnd : Fbs.Nodup := hg.filter _
    have hfilter2 : Fbs.filter (fun g => g ≠ b.name)
        = m.vertex_groups.filter (fun g => ¬ g ∈ (bs ++ [b]).map BoneNode.name) := by
      rw [hFbs, List.filter_filter, hnames]
      apply List.filter_congr
      intro a _
      by_cases h1 : a ∈ ns <;> by_cases h2 : a = b.name <;>
        simp [h1, h2, List.mem_append]
    by_cases hmem : b.name ∈ Fbs
    · obtain ⟨k, hk⟩ := vgIndex_mem Fbs b.name hmem
      have hklt : k < Fbs.length := vgIndex_some_lt Fbs b.name k hk
      have hG1 : vgIndex (Fbs ++ ns) b.name = some k :=
        vgIndex_append_left Fbs ns b.name k hk
      have herase : Fbs.eraseIdx k = Fbs.filter (fun g => g ≠ b.name) :=
        vgIndex_eraseIdx Fbs b.name hFnd k hk
      have herase_len : (Fbs.eraseIdx k).length = Fbs.length - 1 := by
        rw [List.length_eraseIdx]
        simp [hklt]
      have hstep : rebuildVGroup b.name (rebuildVGroups bs m)
          = { verts := (rebuildVGroups bs m).verts.map
                (fun v => { v with dvert := remapDvert k v.dvert })
              vertex_groups := (Fbs.eraseIdx k ++ ns) ++ [b.name]
              next_id := (rebuildVGroups bs m).next_id } := by
        simp only [rebuildVGroup, removeVGroup, ihg, hG1]
        rw [List.eraseIdx_append_of_lt_length hklt]
      refine ⟨?_, ⟨fun d => remapDvert k (F0 d), ?_⟩, ?_, ?_⟩
      · rw [hstep]
        simp only [hnames, herase, hfilter2, List.append_assoc, hns]
      · rw [hstep]
        simp only [ihverts, List.map_map]
        apply List.map_congr_left
        intro v hv
        rfl
      · rw [hstep]
        exact ihid
      · intro hc v hv
        rw [hstep] at hv
        simp only [List.mem_map] at hv
        obtain ⟨v0, hv0, rfl⟩ := hv
        have hclean0 := ihclean hc v0 hv0
        have : cleanHigh (remapDvert k v0.dvert) (Fbs.length - 1) :=
          cleanHigh_remap v0.dvert Fbs.length k hklt hclean0
        have hlen2 : (m.vertex_groups.filter
            (fun g => ¬ g ∈ (bs ++ [b]).map BoneNode.name)).length = Fbs.length - 1 := by
          rw [← hfilter2, ← herase, herase_len]
        rw [hlen2]
        exact this
    · have hG1 : vgIndex (Fbs ++ ns) b.name = none := by
        apply (vgIndex_none_iff _ _).mpr
        intro hmem2
        rcases List.mem_append.mp hmem2 with h1 | h1
        · exact hmem h1
        · exact hbnotin h1
      have hstep : rebuildVGroup b.name (rebuildVGroups bs m)
          = { verts := (rebuildVGroups bs m).verts
              vertex_groups := (Fbs ++ ns) ++ [b.name]
              next_id := (rebuildVGroups bs m).next_id } := by
        simp only [rebuildVGroup, removeVGroup, ihg, hG1]
      have hFbs_self : Fbs.filter (fun g => g ≠ b.name) = Fbs := by
        rw [List.filter_eq_self]
        intro a ha
        simp only [decide_eq_true_eq]
        intro he
        exact hmem (he ▸ ha)
      refine ⟨?_, ⟨F0, ?_⟩, ?_, ?_⟩
      · rw [hstep]
        rw [← hfilter2, hFbs_self, hnames, List.append_assoc]
      · rw [hstep]
        exact ihverts
      · rw [hstep]
        exact ihid
      · intro hc v hv
        rw [hstep] at hv
        have hclean0 := ihclean hc v hv
        have hlen2 : (m.vertex_groups.filter
            (fun g => ¬ g ∈ (bs ++ [b]).map BoneNode.name)).length = Fbs.length := by
          rw [← hfilter2, hFbs_self]
        rw [hlen2]
        exact hclean0

/-! ## Duplication-loop characterization -/

theorem idMem_iff (ids : List Nat) (x : Nat) : idMem ids x = true ↔ x ∈ ids := by
  induction ids with
  | nil => simp [idMem]
  | cons i rest ih =>
    by_cases hi : i = x
    · simp [idMem, hi]
    · have hxi : ¬ x = i := fun h => hi h.symm
      simp [idMem, hi, ih, hxi]

theorem idRange_mem (x : Nat) : ∀ n base, x ∈ idRange base n ↔ base ≤ x ∧ x < base + n := by
  intro n
  induction n with
  | zero => intro base; simp [idRange]
  | succ k ih =>
    intro base
    simp only [idRange, List.mem_cons, ih (base + 1)]
    omega

theorem freshCopies_length (T : List BMVert) : ∀ base, (freshCopies base T).length = T.length := by
  induction T with
  | nil => intro base; rfl
  | cons v rest ih => intro base; simp [freshCopies, ih]

theorem freshCopies_ids (T : List BMVert) :
    ∀ base, (freshCopies base T).map (fun v => v.id) = idRange base T.length := by
  induction T with
  | nil => intro base; rfl
  | cons v rest ih => intro base; simp [freshCopies, idRange, ih]

theorem blockVerts_length (d : Vec3) (k : Nat) (T : List BMVert) :
    ∀ base, (blockVerts d k base T).length = T.length := by
  induction T with
  | nil => intro base; rfl
  | cons v rest ih => intro base; simp [blockVerts, ih]

theorem blockVerts_id_bounds (d : Vec3) (k : Nat) (T : List BMVert) :
    ∀ base v, v ∈ blockVerts d k base T → base ≤ v.id ∧ v.id < base + T.length := by
  induction T with
  | nil => intro base v hv; simp [blockVerts] at hv
  | cons t rest ih =>
    intro base v hv
    simp only [blockVerts, List.mem_cons] at hv
    rcases hv with rfl | hv
    · simp
    · have := ih (base + 1) v hv
      simp only [List.length_cons]
      omega

theorem blockVerts_mem (d : Vec3) (k : Nat) (T : List BMVert) :
    ∀ base v, v ∈ blockVerts d k base T →
      ∃ t ∈ T, v.co = t.co + d ∧ v.select = t.select ∧ v.dvert = dvertSet k 1 t.dvert := by
  induction T with
  | nil => intro base v hv; simp [blockVerts] at hv
  | cons t rest ih =>
    intro base v hv
    simp only [blockVerts, List.mem_cons] at hv
    rcases hv with rfl | hv
    · exact ⟨t, List.mem_cons_self t rest, rfl, rfl, rfl⟩
    · obtain ⟨t0, ht0, h⟩ := ih (base + 1) v hv
      exact ⟨t0, List.mem_cons_of_mem t ht0, h⟩

theorem blockVerts_map_co (d : Vec3) (k : Nat) (T : List BMVert) :
    ∀ base, (blockVerts d k base T).map (fun v => v.co) = T.map (fun t => t.co + d) := by
  induction T with
  | nil => intro base; rfl
  | cons t rest ih => intro base; simp [blockVerts, ih]

theorem guardedMap_id (l : List BMVert) (q : Nat → Bool) (f : BMVert → BMVert)
    (h : ∀ v ∈ l, q v.id = false) :
    l.map (fun v => if q v.id then f v else v) = l := by
  have : ∀ v ∈ l, (fun v => if q v.id then f v else v) v = id v := by
    intro v hv
    simp [h v hv]
  rw [List.map_congr_left this, List.map_id]

theorem freshCopies_guarded_maps (d : Vec3) (k : Nat) (q1 q2 : Nat → Bool) :
    ∀ (T : List BMVert) (base : Nat),
      (∀ x, base ≤ x → x < base + T.length → q1 x = true) →
      (∀ x, base ≤ x → x < base + T.length → q2 x = true) →
      ((freshCopies base T).map
          (fun v => if q1 v.id then { v with co := v.co + d } else v)).map
          (fun v => if q2 v.id then { v with dvert := dvertSet k 1 v.dvert } else v)
        = blockVerts d k base T := by
  intro T
  induction T with
  | nil => intro base _ _; rfl
  | cons t rest ih =>
    intro base h1 h2
    simp only [freshCopies, List.map_cons, blockVerts]
    rw [if_pos (h1 base (Nat.le_refl base) (by simp))]
    rw [if_pos (h2 base (Nat.le_refl base) (by simp))]
    congr 1
    exact ih (base + 1) (fun x hx1 hx2 => h1 x (by omega) (by simp at hx2 ⊢; omega))
      (fun x hx1 hx2 => h2 x (by omega) (by simp at hx2 ⊢; omega))

theorem duplicateStep_spec (sp : AffineT) (p0 : Vec3) (template : List Nat)
    (b : BoneNode) (m : MeshState) (k : Nat)
    (hwfn : ∀ v ∈ m.verts, v.id < m.next_id)
    (hgrp : vgIndex m.vertex_groups b.name = some k) :
    duplicateStep sp p0 template b m
      = { verts := m.verts ++ blockVerts
            (sp.lin.mulVec (Vec3.smul (1 / 2) (b.head_local + b.tail_local) - p0)) k m.next_id
            (m.verts.filter (fun v => idMem template v.id))
          vertex_groups := m.vertex_groups
          next_id := m.next_id + (m.verts.filter (fun v => idMem template v.id)).length } := by
  set T := m.verts.filter (fun v => idMem template v.id) with hT
  set newIds := (freshCopies m.next_id T).map (fun v => v.id) with hNew
  have hids : newIds = idRange m.next_id T.length := freshCopies_ids T m.next_id
  have hq_true : ∀ x, m.next_id ≤ x → x < m.next_id + T.length → idMem newIds x = true := by
    intro x h1 h2
    rw [idMem_iff, hids, idRange_mem]
    exact ⟨h1, h2⟩
  have hq_false : ∀ v ∈ m.verts, idMem newIds v.id = false := by
    intro v hv
    rw [Bool.eq_false_iff]
    intro htrue
    rw [idMem_iff, hids, idRange_mem] at htrue
    exact absurd htrue.1 (by have := hwfn v hv; omega)
  show assign_bone_verts b.name (dupliVerts template m).2
      (bmesh_ops_translate _ sp (dupliVerts template m).2 (dupliVerts template m).1) = _
  have hdv : dupliVerts template m
      = ({ m with verts := m.verts ++ freshCopies m.next_id T, next_id := m.next_id + T.length },
         newIds) := by
    simp only [dupliVerts, hT, hNew]
  rw [hdv]
  simp only [bmesh_ops_translate, assign_bone_verts, hgrp]
  simp only [List.map_append]
  rw [guardedMap_id m.verts (fun x => idMem newIds x) _ hq_false]
  rw [guardedMap_id m.verts (fun x => idMem newIds x) _ hq_false]
  rw [freshCopies_guarded_maps _ _ (fun x => idMem newIds x) (fun x => idMem newIds x)
    T m.next_id hq_true hq_true]

theorem duplicateLoop_spec (sp : AffineT) (p0 : Vec3) (template : List Nat) :
    ∀ (bones : List BoneNode) (m : MeshState),
      (∀ v ∈ m.verts, v.id < m.next_id) →
      (∀ t ∈ template, t < m.next_id) →
      (∀ b ∈ bones, ∃ k, vgIndex m.vertex_groups b.name = some k) →
      duplicateLoop sp p0 template bones m
        = { verts := m.verts ++ dupliBlocks sp p0 m.vertex_groups
              (m.verts.filter (fun v => idMem template v.id)) m.next_id bones
            vertex_groups := m.vertex_groups
            next_id := m.next_id
              + bones.length * (m.verts.filter (fun v => idMem template v.id)).length } := by
  intro bones
  induction bones with
  | nil =>
    intro m _ _ _
    simp [duplicateLoop, dupliBlocks]
  | cons b rest ih =>
    intro m hwfn htmp hgrp
    obtain ⟨k, hk⟩ := hgrp b (List.mem_cons_self b rest)
    rw [duplicateLoop, duplicateStep_spec sp p0 template b m k hwfn hk]
    set T := m.verts.filter (fun v => idMem template v.id) with hT
    set delta := sp.lin.mulVec (Vec3.smul (1 / 2) (b.head_local + b.tail_local) - p0) with hdelta
    set m1 : MeshState :=
      { verts := m.verts ++ blockVerts delta k m.next_id T
        vertex_groups := m.vertex_groups
        next_id := m.next_id + T.length } with hm1
    have hwfn1 : ∀ v ∈ m1.verts, v.id < m1.next_id := by
      intro v hv
      rcases List.mem_append.mp hv with hv | hv
      · have := hwfn v hv
        simp only [hm1]
        omega
      · have := (blockVerts_id_bounds delta k T m.next_id v hv).2
        simp only [hm1]
        omega
    have htmp1 : ∀ t ∈ template, t < m1.next_id := by
      intro t ht
      have := htmp t ht
      simp only [hm1]
      omega
    have hgrp1 : ∀ c ∈ rest, ∃ k2, vgIndex m1.vertex_groups c.name = some k2 :=
      fun c hc => hgrp c (List.mem_cons_of_mem b hc)
    have hTfilter : m1.verts.filter (fun v => idMem template v.id) = T := by
      show (m.verts ++ blockVerts delta k m.next_id T).filter (fun v => idMem template v.id) = T
      rw [List.filter_append]
      have hnil : (blockVerts delta k m.next_id T).filter (fun v => idMem template v.id) = [] := by
        rw [List.filter_eq_nil_iff]
        intro v hv
        have hb := (blockVerts_id_bounds delta k T m.next_id v hv).1
        intro htrue
        rw [idMem_iff] at htrue
        have := htmp v.id htrue
        omega
      rw [hnil, hT, List.append_nil]
    rw [ih m1 hwfn1 htmp1 hgrp1, hTfilter]
    have hgroups1 : m1.vertex_groups = m.vertex_groups := rfl
    have hnext1 : m1.next_id = m.next_id + T.length := rfl
    rw [hgroups1, hnext1]
    have hverts1 : m1.verts = m.verts ++ blockVerts delta k m.next_id T := rfl
    rw [hverts1]
    have hblocks : dupliBlocks sp p0 m.vertex_groups T m.next_id (b :: rest)
        = blockVerts delta k m.next_id T
          ++ dupliBlocks sp p0 m.vertex_groups T (m.next_id + T.length) rest := by
      simp only [dupliBlocks, hk, Option.getD_some, hdelta]
    rw [hblocks, List.append_assoc]
    have harith : m.next_id + T.length + rest.length * T.length
        = m.next_id + (b :: rest).length * T.length := by
      simp only [List.length_cons]
      ring
    rw [harith]

theorem dupliBlocks_length (sp : AffineT) (p0 : Vec3) (G : List String) (T : List BMVert) :
    ∀ (bones : List BoneNode) (base : Nat),
      (dupliBlocks sp p0 G T base bones).length = bones.length * T.length := by
  intro bones
  induction bones with
  | nil => intro base; simp [dupliBlocks]
  | cons b rest ih =>
    intro base
    simp only [dupliBlocks, List.length_append, blockVerts_length, ih, List.length_cons]
    rw [Nat.succ_mul]
    omega

theorem dupliBlocks_id_lower (sp : AffineT) (p0 : Vec3) (G : List String) (T : List BMVert) :
    ∀ (bones : List BoneNode) (base : Nat) (v : BMVert),
      v ∈ dupliBlocks sp p0 G T base bones → base ≤ v.id := by
  intro bones
  induction bones with
  | nil => intro base v hv; simp [dupliBlocks] at hv
  | cons b rest ih =>
    intro base v hv
    rcases List.mem_append.mp hv with hv | hv
    · exact (blockVerts_id_bounds _ _ T base v hv).1
    · have := ih (base + T.length) v hv
      omega

theorem dupliBlocks_block (sp : AffineT) (p0 : Vec3) (G : List String) (T : List BMVert) :
    ∀ (bones : List BoneNode) (j : Nat) (base : Nat) (bj : BoneNode),
      bones[j]? = some bj →
      ((dupliBlocks sp p0 G T base bones).drop (j * T.length)).take T.length
        = blockVerts (sp.lin.mulVec (Vec3.smul (1 / 2) (bj.head_local + bj.tail_local) - p0))
            ((vgIndex G bj.name).getD 0) (base + j * T.length) T := by
  intro bones
  induction bones with
  | nil => intro j base bj hj; simp at hj
  | cons b rest ih =>
    intro j base bj hj
    cases j with
    | zero =>
      simp only [List.getElem?_cons_zero, Option.some_inj] at hj
      subst hj
      simp only [Nat.zero_mul, List.drop_zero, dupliBlocks, Nat.add_zero]
      rw [show T.length = (blockVerts (sp.lin.mulVec
          (Vec3.smul (1 / 2) (b.head_local + b.tail_local) - p0))
          ((vgIndex G b.name).getD 0) base T).length from (blockVerts_length _ _ T base).symm]
      exact List.take_left _ _
    | succ j0 =>
      simp only [List.getElem?_cons_succ] at hj
      have harith : (j0 + 1) * T.length = T.length + j0 * T.length := by ring
      have hdrop : ∀ (l1 l2 : List BMVert) (n x : Nat), l1.length = n →
          (l1 ++ l2).drop (n + x) = l2.drop x := by
        intro l1 l2 n x h
        subst h
        exact List.drop_append x
      have h2 : base + T.length + j0 * T.length = base + (j0 + 1) * T.length := by ring
      rw [dupliBlocks, harith, hdrop _ _ _ _ (blockVerts_length _ _ T base),
        ih j0 (base + T.length) bj hj, h2]
      have h3 : base + (j0 + 1) * T.length = base + (T.length + j0 * T.length) := by ring
      rw [h3]

theorem idMem_template_filter (m : MeshState)
    (hnd : (m.verts.map (fun v => v.id)).Nodup) :
    m.verts.filter
        (fun v => idMem ((m.verts.filter (fun v => v.select)).map (fun v => v.id)) v.id)
      = m.verts.filter (fun v => v.select) := by
  apply List.filter_congr
  intro v hv
  cases hsel : v.select with
  | true =>
    rw [idMem_iff]
    simp only [List.mem_map, List.mem_filter]
    exact ⟨v, ⟨hv, hsel⟩, rfl⟩
  | false =>
    rw [Bool.eq_false_iff]
    intro htrue
    rw [idMem_iff] at htrue
    simp only [List.mem_map, List.mem_filter] at htrue
    obtain ⟨w, ⟨hw, hwsel⟩, hwid⟩ := htrue
    have : w = v := List.inj_on_of_nodup_map hnd hw hv hwid
    rw [this] at hwsel
    rw [hwsel] at hsel
    cases hsel

theorem replicator_execute_eq (rootbone_enum : String) (ctx : ReplicatorCtx)
    (arm_obj : ArmObj) (rootbone : BoneNode) (chain : List BoneNode)
    (m1 : MeshState) (T : List BMVert)
    (harm : get_armature_object ctx.modifiers = some arm_obj)
    (hroot : findBone arm_obj.bones rootbone_enum = some rootbone)
    (hg : ctx.mesh.vertex_groups.Nodup)
    (hbn : ((chainWalk rootbone).map BoneNode.name).Nodup)
    (hwf : wfIds ctx.mesh)
    (hchain : chain = chainWalk rootbone)
    (hm1 : m1 = rebuildVGroups chain ctx.mesh)
    (hT : T = m1.verts.filter (fun v => v.select)) :
    CreateChainMeshArray.execute rootbone_enum ctx
      = (OpResult.finished,
         assign_bone_verts rootbone.name (T.map (fun v => v.id))
           { verts := m1.verts ++ dupliBlocks
               (ctx.mesh_matrix_world.inverted.comp arm_obj.matrix_world)
               (Vec3.smul (1 / 2) (rootbone.head_local + rootbone.tail_local))
               m1.vertex_groups T m1.next_id (chain.drop 1)
             vertex_groups := m1.vertex_groups
             next_id := m1.next_id + (chain.drop 1).length * T.length }) := by
  obtain ⟨hgroups, ⟨F0, hverts⟩, hid, _⟩ :=
    rebuildVGroups_spec chain ctx.mesh hg (by rw [hchain]; exact hbn)
  have hids_eq : m1.verts.map (fun v => v.id) = ctx.mesh.verts.map (fun v => v.id) := by
    rw [hm1, hverts, List.map_map]
    rfl
  have hnd1 : (m1.verts.map (fun v => v.id)).Nodup := by
    rw [hids_eq]
    exact hwf.1
  have hwf1 : ∀ v ∈ m1.verts, v.id < m1.next_id := by
    intro v hv
    rw [hm1, hverts] at hv
    simp only [List.mem_map] at hv
    obtain ⟨v0, hv0, rfl⟩ := hv
    rw [hm1, hid]
    exact hwf.2 v0 hv0
  have htmp : ∀ t ∈ T.map (fun v => v.id), t < m1.next_id := by
    intro t ht
    simp only [List.mem_map] at ht
    obtain ⟨v, hv, rfl⟩ := ht
    rw [hT] at hv
    exact hwf1 v (List.mem_of_mem_filter hv)
  have hgrp : ∀ b ∈ chain.drop 1, ∃ k, vgIndex m1.vertex_groups b.name = some k := by
    intro b hb
    apply vgIndex_mem
    rw [hm1, hgroups]
    apply List.mem_append_right
    exact List.mem_map_of_mem BoneNode.name (List.mem_of_mem_drop hb)
  have hTfilter : m1.verts.filter (fun v => idMem (T.map (fun v => v.id)) v.id) = T := by
    rw [hT]
    exact idMem_template_filter m1 hnd1
  simp only [CreateChainMeshArray.execute, harm, hroot]
  rw [← hchain, ← hm1]
  rw [duplicateLoop_spec (ctx.mesh_matrix_world.inverted.comp arm_obj.matrix_world)
    (Vec3.smul (1 / 2) (rootbone.head_local + rootbone.tail_local))
    ((m1.verts.filter (fun v => v.select)).map (fun v => v.id)) (chain.drop 1) m1 hwf1
    (by rw [← hT]; exact htmp) hgrp]
  rw [show (m1.verts.filter (fun v => v.select)) = T from hT.symm]
  rw [hTfilter]

theorem chainWalk_cons (b : BoneNode) : ∃ tl, chainWalk b = b :: tl := by
  cases b with
  | node n h t cs =>
    cases cs with
    | nil => exact ⟨[], rfl⟩
    | cons c rest => exact ⟨chainWalk c, rfl⟩

/-! ## Claim C1: replicated vertices, groups, and weights -/

/-- C1: for a chain of length M and a selected template of K vertices, a
successful CreateChainMeshArray run produces exactly (M-1)*K new vertices and
rebuilds exactly the M vertex groups named after the chain bones (removing
any pre-existing group of the same name, order of untouched groups kept);
every vertex of duplicate i carries weight exactly 1 in bone i's group and 0
in every other chain bone's group — in particular no root weight leaks onto
duplicates, the observable content of assigning the root group only after all
duplicates exist — and after the final root assignment the original template
vertices carry weight 1 in the root group and 0 in all other chain groups,
while untouched original vertices carry weight 0 in every chain group. -/
theorem claim_C1_replicator_counts_weights (rootbone_enum : String) (ctx : ReplicatorCtx)
    (arm_obj : ArmObj) (rootbone : BoneNode) (names : List String) (M K : Nat)
    (out : MeshState)
    (harm : get_armature_object ctx.modifiers = some arm_obj)
    (hroot : findBone arm_obj.bones rootbone_enum = some rootbone)
    (hbn : ((chainWalk rootbone).map BoneNode.name).Nodup)
    (hg : ctx.mesh.vertex_groups.Nodup)
    (hwf : wfIds ctx.mesh)
    (hclean : ∀ v ∈ ctx.mesh.verts, cleanHigh v.dvert ctx.mesh.vertex_groups.length)
    (hnames : names = (chainWalk rootbone).map BoneNode.name)
    (hM : M = (chainWalk rootbone).length)
    (hK : K = (ctx.mesh.verts.filter (fun v => v.select)).length)
    (hout : out = (CreateChainMeshArray.execute rootbone_enum ctx).2) :
    (CreateChainMeshArray.execute rootbone_enum ctx).1 = OpResult.finished
    ∧ out.verts.length = ctx.mesh.verts.length + (M - 1) * K
    ∧ out.vertex_groups = ctx.mesh.vertex_groups.filter (fun g => ¬ g ∈ names) ++ names
    ∧ (∀ i, 1 ≤ i → i < M →
        ∀ v ∈ (out.verts.drop (ctx.mesh.verts.length + (i - 1) * K)).take K,
          ∀ j nm, j < M → names[j]? = some nm →
            weightOf out v nm = if j = i then 1 else 0)
    ∧ (∀ v ∈ (out.verts.take ctx.mesh.verts.length).filter (fun v => v.select),
        ∀ j nm, j < M → names[j]? = some nm →
          weightOf out v nm = if j = 0 then 1 else 0)
    ∧ (∀ v ∈ (out.verts.take ctx.mesh.verts.length).filter (fun v => !v.select),
        ∀ j nm, j < M → names[j]? = some nm → weightOf out v nm = 0) := by
  subst hnames hM hK hout
  set chain := chainWalk rootbone with hchaindef
  set m1 := rebuildVGroups chain ctx.mesh with hm1def
  set T := m1.verts.filter (fun v => v.select) with hTdef
  obtain ⟨hgroups, ⟨F0, hverts⟩, hid, hcleanimp⟩ := rebuildVGroups_spec chain ctx.mesh hg hbn
  set Fg := ctx.mesh.vertex_groups.filter (fun g => ¬ g ∈ chain.map BoneNode.name) with hFgdef
  set base := Fg.length with hbasedef
  have hclean1 : ∀ v ∈ m1.verts, cleanHigh v.dvert base := hcleanimp hclean
  have hexec := replicator_execute_eq rootbone_enum ctx arm_obj rootbone chain m1 T
    harm hroot hg hbn hwf hchaindef hm1def hTdef
  -- identity bookkeeping transferred through the rebuild
  have hids_eq : m1.verts.map (fun v => v.id) = ctx.mesh.verts.map (fun v => v.id) := by
    rw [hm1def, hverts, List.map_map]
    rfl
  have hnd1 : (m1.verts.map (fun v => v.id)).Nodup := by
    rw [hids_eq]
    exact hwf.1
  have hwf1 : ∀ v ∈ m1.verts, v.id < m1.next_id := by
    intro v hv
    rw [hm1def, hverts] at hv
    simp only [List.mem_map] at hv
    obtain ⟨v0, hv0, rfl⟩ := hv
    rw [hm1def, hid]
    exact hwf.2 v0 hv0
  have htmp : ∀ t ∈ T.map (fun v => v.id), t < m1.next_id := by
    intro t ht
    simp only [List.mem_map] at ht
    obtain ⟨v, hv, rfl⟩ := ht
    rw [hTdef] at hv
    exact hwf1 v (List.mem_of_mem_filter hv)
  have hm1len : m1.verts.length = ctx.mesh.verts.length := by
    rw [hm1def, hverts, List.length_map]
  have hKT : T.length = (ctx.mesh.verts.filter (fun v => v.select)).length := by
    rw [hTdef, hm1def, hverts, List.filter_map, List.length_map]
    congr 1
  -- the vertex-group index of every chain name in the rebuilt group list
  have hvg : ∀ j nm, (chain.map BoneNode.name)[j]? = some nm →
      vgIndex m1.vertex_groups nm = some (j + base) := by
    intro j nm hj
    rw [hm1def, hgroups]
    have hnm_names : nm ∈ chain.map BoneNode.name := List.getElem?_mem hj
    have hnm_not : ¬ nm ∈ Fg := by
      intro hmem
      have := (List.mem_filter.mp hmem).2
      simp only [decide_not, Bool.not_eq_true', decide_eq_false_iff_not] at this
      exact this hnm_names
    rw [vgIndex_append_of_not_mem Fg (chain.map BoneNode.name) nm hnm_not,
      vgIndex_nodup_get (chain.map BoneNode.name) hbn j nm hj]
    rfl
  -- head of the chain is the root itself
  obtain ⟨tl, htl⟩ := chainWalk_cons rootbone
  have hname0 : (chain.map BoneNode.name)[0]? = some rootbone.name := by
    rw [hchaindef, htl]
    simp
  have hrootvg : vgIndex m1.vertex_groups rootbone.name = some base := by
    have := hvg 0 rootbone.name hname0
    simpa using this
  -- shape of the final state
  set delta := fun b : BoneNode =>
    (ctx.mesh_matrix_world.inverted.comp arm_obj.matrix_world).lin.mulVec
      (Vec3.smul (1 / 2) (b.head_local + b.tail_local)
        - Vec3.smul (1 / 2) (rootbone.head_local + rootbone.tail_local)) with hdeltadef
  set m2 : MeshState :=
    { verts := m1.verts ++ dupliBlocks
        (ctx.mesh_matrix_world.inverted.comp arm_obj.matrix_world)
        (Vec3.smul (1 / 2) (rootbone.head_local + rootbone.tail_local))
        m1.vertex_groups T m1.next_id (chain.drop 1)
      vertex_groups := m1.vertex_groups
      next_id := m1.next_id + (chain.drop 1).length * T.length } with hm2def
  set g := fun v : BMVert =>
    if idMem (T.map (fun v => v.id)) v.id then { v with dvert := dvertSet base 1 v.dvert }
    else v with hgdef
  have hout_eq : (CreateChainMeshArray.execute rootbone_enum ctx).2
      = { m2 with verts := m2.verts.map g } := by
    rw [hexec]
    show assign_bone_verts rootbone.name (T.map (fun v => v.id)) m2 = _
    simp only [assign_bone_verts]
    rw [show m2.vertex_groups = m1.vertex_groups from rfl, hrootvg]
  have hout_groups : (CreateChainMeshArray.execute rootbone_enum ctx).2.vertex_groups
      = Fg ++ chain.map BoneNode.name := by
    rw [hout_eq]
    show m2.vertex_groups = _
    rw [show m2.vertex_groups = m1.vertex_groups from rfl, hm1def, hgroups]
  have hweight : ∀ (v : BMVert) (j : Nat) (nm : String),
      (chain.map BoneNode.name)[j]? = some nm →
      weightOf (CreateChainMeshArray.execute rootbone_enum ctx).2 v nm = v.dvert (j + base) := by
    intro v j nm hj
    have hv := hvg j nm hj
    rw [weightOf, hout_eq]
    rw [show ({ m2 with verts := m2.verts.map g } : MeshState).vertex_groups
        = m1.vertex_groups from rfl, hv]
  refine ⟨by rw [hexec], ?_, ?_, ?_, ?_, ?_⟩
  · -- vertex count
    rw [hout_eq]
    show (m2.verts.map g).length = _
    rw [List.length_map]
    show (m1.verts ++ dupliBlocks _ _ _ _ _ _).length = _
    rw [List.length_append, hm1len, dupliBlocks_length, List.length_drop, hKT]
  · -- vertex groups
    exact hout_groups
  · -- duplicate blocks
    intro i h1i hiM v hv j nm hjM hj
    -- the block of duplicate i, pulled back through the final assignment map
    have hbi : chain[i]? = some chain[i] := List.getElem?_eq_getElem hiM
    have hbones : (chain.drop 1)[i - 1]? = some chain[i] := by
      rw [List.getElem?_drop]
      rw [show 1 + (i - 1) = i by omega]
      exact hbi
    have hgidx : (vgIndex m1.vertex_groups (chain[i]).name).getD 0 = i + base := by
      have hnmi : (chain.map BoneNode.name)[i]? = some (chain[i]).name := by
        rw [List.getElem?_map, hbi]
        rfl
      rw [hvg i (chain[i]).name hnmi]
      rfl
    have hblock := dupliBlocks_block
      (ctx.mesh_matrix_world.inverted.comp arm_obj.matrix_world)
      (Vec3.smul (1 / 2) (rootbone.head_local + rootbone.tail_local))
      m1.vertex_groups T (chain.drop 1) (i - 1) m1.next_id chain[i] hbones
    rw [hout_eq] at hv
    rw [← hKT] at hv
    have hv2 : v ∈ ((m2.verts.map g).drop
        (ctx.mesh.verts.length + (i - 1) * T.length)).take T.length := hv
    rw [← List.map_drop, ← List.map_take] at hv2
    have hdropeq : (m2.verts.drop (ctx.mesh.verts.length + (i - 1) * T.length)).take T.length
        = blockVerts ((ctx.mesh_matrix_world.inverted.comp arm_obj.matrix_world).lin.mulVec
            (Vec3.smul (1 / 2) ((chain[i]).head_local + (chain[i]).tail_local)
              - Vec3.smul (1 / 2) (rootbone.head_local + rootbone.tail_local)))
            (i + base) (m1.next_id + (i - 1) * T.length) T := by
      show ((m1.verts ++ dupliBlocks _ _ _ _ _ _).drop
          (ctx.mesh.verts.length + (i - 1) * T.length)).take T.length = _
      have hdrop2 : ∀ (l1 l2 : List BMVert) (n x : Nat), l1.length = n →
          (l1 ++ l2).drop (n + x) = l2.drop x := by
        intro l1 l2 n x h
        subst h
        exact List.drop_append x
      rw [hdrop2 _ _ _ _ hm1len, hblock, hgidx]
    rw [hdropeq] at hv2
    simp only [List.mem_map] at hv2
    obtain ⟨bv, hbv, rfl⟩ := hv2
    have hbv_lower : m1.next_id ≤ bv.id := by
      have := (blockVerts_id_bounds _ _ T (m1.next_id + (i - 1) * T.length) bv hbv).1
      omega
    have hbv_notmpl : idMem (T.map (fun v => v.id)) bv.id = false := by
      rw [Bool.eq_false_iff]
      intro htrue
      rw [idMem_iff] at htrue
      have := htmp bv.id htrue
      omega
    have hgbv : g bv = bv := by
      rw [hgdef]
      simp [hbv_notmpl]
    rw [hgbv]
    obtain ⟨t, ht, _, _, hdvert⟩ := blockVerts_mem _ _ T _ bv hbv
    rw [hweight bv j nm hj, hdvert]
    by_cases hji : j = i
    · subst hji
      simp [dvertSet]
    · have hne : j + base ≠ i + base := by omega
      rw [if_neg hji]
      simp only [dvertSet, if_neg hne]
      exact hclean1 t (List.mem_of_mem_filter (hTdef ▸ ht)) (j + base) (by omega)
  · -- original template vertices
    intro v hv j nm hjM hj
    rw [hout_eq] at hv
    have hv2 : v ∈ ((m2.verts.map g).take ctx.mesh.verts.length).filter (fun v => v.select) := hv
    rw [← List.map_take] at hv2
    have htake : m2.verts.take ctx.mesh.verts.length = m1.verts := by
      show (m1.verts ++ dupliBlocks _ _ _ _ _ _).take ctx.mesh.verts.length = m1.verts
      rw [← hm1len]
      exact List.take_left _ _
    rw [htake, List.filter_map] at hv2
    have hselg : ∀ w ∈ m1.verts, ((fun v => v.select) ∘ g) w = w.select := by
      intro w _
      rw [hgdef]
      by_cases hmem : idMem (T.map (fun v => v.id)) w.id = true <;> simp [hmem]
    rw [List.filter_congr hselg] at hv2
    simp only [List.mem_map] at hv2
    obtain ⟨t, ht, rfl⟩ := hv2
    have htT : t ∈ T := by
      rw [hTdef]
      exact ht
    have htmem : idMem (T.map (fun v => v.id)) t.id = true := by
      rw [idMem_iff]
      exact List.mem_map_of_mem _ htT
    have hgt : g t = { t with dvert := dvertSet base 1 t.dvert } := by
      rw [hgdef]
      simp [htmem]
    rw [hgt, hweight _ j nm hj]
    show dvertSet base 1 t.dvert (j + base) = _
    by_cases hj0 : j = 0
    · subst hj0
      simp [dvertSet]
    · have hne : j + base ≠ base := by omega
      simp only [dvertSet, if_neg hne, if_neg hj0]
      exact hclean1 t (List.mem_of_mem_filter htT) (j + base) (by omega)
  · -- untouched original vertices
    intro v hv j nm hjM hj
    rw [hout_eq] at hv
    have hv2 : v ∈ ((m2.verts.map g).take ctx.mesh.verts.length).filter (fun v => !v.select) := hv
    rw [← List.map_take] at hv2
    have htake : m2.verts.take ctx.mesh.verts.length = m1.verts := by
      show (m1.verts ++ dupliBlocks _ _ _ _ _ _).take ctx.mesh.verts.length = m1.verts
      rw [← hm1len]
      exact List.take_left _ _
    rw [htake, List.filter_map] at hv2
    have hselg : ∀ w ∈ m1.verts, ((fun v => !v.select) ∘ g) w = !w.select := by
      intro w _
      rw [hgdef]
      by_cases hmem : idMem (T.map (fun v => v.id)) w.id = true <;> simp [hmem]
    rw [List.filter_congr hselg] at hv2
    simp only [List.mem_map] at hv2
    obtain ⟨t, ht, rfl⟩ := hv2
    have htsel : t.select = false := by
      have := (List.mem_filter.mp ht).2
      simpa using this
    have htmem : idMem (T.map (fun v => v.id)) t.id = false := by
      rw [Bool.eq_false_iff]
      intro htrue
      rw [idMem_iff] at htrue
      simp only [List.mem_map] at htrue
      obtain ⟨w, hw, hwid⟩ := htrue
      have hwm1 : w ∈ m1.verts := List.mem_of_mem_filter (hTdef ▸ hw)
      have htm1 : t ∈ m1.verts := List.mem_of_mem_filter ht
      have : w = t := List.inj_on_of_nodup_map hnd1 hwm1 htm1 hwid
      have hwsel := (List.mem_filter.mp (hTdef ▸ hw)).2
      rw [this] at hwsel
      simp [htsel] at hwsel
    have hgt : g t = t := by
      rw [hgdef]
      simp [htmem]
    rw [hgt, hweight _ j nm hj]
    exact hclean1 t (List.mem_of_mem_filter ht) (j + base) (by omega)

/-- Witness instantiating C1 at the concrete two-bone chain and one-vertex
template. -/
theorem claim_C1_witness :
    get_armature_object testReplicatorCtx.modifiers = some testArm
    ∧ findBone testArm.bones "Bone" = some testRoot
    ∧ ((chainWalk testRoot).map BoneNode.name).Nodup
    ∧ wfIds testReplicatorCtx.mesh
    ∧ ((CreateChainMeshArray.execute "Bone" testReplicatorCtx).1 = OpResult.finished
      ∧ (CreateChainMeshArray.execute "Bone" testReplicatorCtx).2.verts.length
          = testReplicatorCtx.mesh.verts.length
            + ((chainWalk testRoot).length - 1)
              * (testReplicatorCtx.mesh.verts.filter (fun v => v.select)).length
      ∧ (CreateChainMeshArray.execute "Bone" testReplicatorCtx).2.vertex_groups
          = testReplicatorCtx.mesh.vertex_groups.filter
              (fun g => ¬ g ∈ (chainWalk testRoot).map BoneNode.name)
            ++ (chainWalk testRoot).map BoneNode.name
      ∧ (∀ i, 1 ≤ i → i < (chainWalk testRoot).length →
          ∀ v ∈ ((CreateChainMeshArray.execute "Bone" testReplicatorCtx).2.verts.drop
              (testReplicatorCtx.mesh.verts.length
                + (i - 1) * (testReplicatorCtx.mesh.verts.filter (fun v => v.select)).length)).take
              (testReplicatorCtx.mesh.verts.filter (fun v => v.select)).length,
            ∀ j nm, j < (chainWalk testRoot).length →
              ((chainWalk testRoot).map BoneNode.name)[j]? = some nm →
              weightOf (CreateChainMeshArray.execute "Bone" testReplicatorCtx).2 v nm
                = if j = i then 1 else 0)
      ∧ (∀ v ∈ ((CreateChainMeshArray.execute "Bone" testReplicatorCtx).2.verts.take
            testReplicatorCtx.mesh.verts.length).filter (fun v => v.select),
          ∀ j nm, j < (chainWalk testRoot).length →
            ((chainWalk testRoot).map BoneNode.name)[j]? = some nm →
            weightOf (CreateChainMeshArray.execute "Bone" testReplicatorCtx).2 v nm
              = if j = 0 then 1 else 0)
      ∧ (∀ v ∈ ((CreateChainMeshArray.execute "Bone" testReplicatorCtx).2.verts.take
            testReplicatorCtx.mesh.verts.length).filter (fun v => !v.select),
          ∀ j nm, j < (chainWalk testRoot).length →
            ((chainWalk testRoot).map BoneNode.name)[j]? = some nm →
            weightOf (CreateChainMeshArray.execute "Bone" testReplicatorCtx).2 v nm = 0)) := by
  have hroot : findBone testArm.bones "Bone" = some testRoot := by
    simp [findBone, testArm, testRoot, testChild]
  have hbn : ((chainWalk testRoot).map BoneNode.name).Nodup := by
    simp [chainWalk, testRoot, testChild, BoneNode.name]
  have hwf : wfIds testReplicatorCtx.mesh := by
    constructor
    · simp [testReplicatorCtx, testMesh]
    · intro v hv
      simp only [testReplicatorCtx, testMesh, List.mem_singleton] at hv
      subst hv
      decide
  have hclean : ∀ v ∈ testReplicatorCtx.mesh.verts,
      cleanHigh v.dvert testReplicatorCtx.mesh.vertex_groups.length := by
    intro v hv
    simp only [testReplicatorCtx, testMesh, List.mem_singleton] at hv
    subst hv
    intro j hj
    rfl
  exact ⟨rfl, hroot, hbn, hwf,
    claim_C1_replicator_counts_weights "Bone" testReplicatorCtx testArm testRoot
      ((chainWalk testRoot).map BoneNode.name) (chainWalk testRoot).length
      (testReplicatorCtx.mesh.verts.filter (fun v => v.select)).length
      (CreateChainMeshArray.execute "Bone" testReplicatorCtx).2
      rfl hroot hbn (by simp [testReplicatorCtx, testMesh]) hwf hclean rfl rfl rfl rfl⟩

/-! ## Claim C5: duplicate translation and midpoint alignment -/

theorem armatureSpaceCoords_add (mw aw : AffineT) (u w : Vec3) :
    armatureSpaceCoords mw aw (u + w)
      = armatureSpaceCoords mw aw u + aw.lin.inv.mulVec (mw.lin.mulVec w) := by
  simp only [armatureSpaceCoords, AffineT.apply_add]
  rw [show (aw.inverted).lin = aw.lin.inv from rfl]

/-- C5: duplicate i's vertices are the template's vertices translated by
(p_i - p_0) mapped through the combined mesh-local/armature transform
(bone_space = mesh_world⁻¹ ∘ arm_world, applied to the midpoint difference of
bone i and the root bone), and — when the template's centroid sits at the
root bone's midpoint in armature space and the world transforms are
invertible — the translated duplicate's centroid coincides exactly with bone
i's local midpoint (exact in the rational model standing in for floating
tolerance). -/
theorem claim_C5_duplicate_translation (rootbone_enum : String) (ctx : ReplicatorCtx)
    (arm_obj : ArmObj) (rootbone bi : BoneNode) (i : Nat)
    (harm : get_armature_object ctx.modifiers = some arm_obj)
    (hroot : findBone arm_obj.bones rootbone_enum = some rootbone)
    (hbn : ((chainWalk rootbone).map BoneNode.name).Nodup)
    (hg : ctx.mesh.vertex_groups.Nodup)
    (hwf : wfIds ctx.mesh)
    (h1i : 1 ≤ i) (hiM : i < (chainWalk rootbone).length)
    (hbi : (chainWalk rootbone)[i]? = some bi)
    (hKpos : 0 < (ctx.mesh.verts.filter (fun v => v.select)).length)
    (hMw : ctx.mesh_matrix_world.lin.mul ctx.mesh_matrix_world.lin.inv = Mat3.idM)
    (hAw : arm_obj.matrix_world.lin.inv.mul arm_obj.matrix_world.lin = Mat3.idM)
    (hmid : armatureSpaceCoords ctx.mesh_matrix_world arm_obj.matrix_world
        (centroid ((ctx.mesh.verts.filter (fun v => v.select)).map (fun v => v.co)))
      = Vec3.smul (1 / 2) (rootbone.head_local + rootbone.tail_local)) :
    (((CreateChainMeshArray.execute rootbone_enum ctx).2.verts.drop
        (ctx.mesh.verts.length
          + (i - 1) * (ctx.mesh.verts.filter (fun v => v.select)).length)).take
        (ctx.mesh.verts.filter (fun v => v.select)).length).map (fun v => v.co)
      = ((ctx.mesh.verts.filter (fun v => v.select)).map (fun v => v.co)).map
          (fun c => c + (ctx.mesh_matrix_world.inverted.comp arm_obj.matrix_world).lin.mulVec
            (Vec3.smul (1 / 2) (bi.head_local + bi.tail_local)
              - Vec3.smul (1 / 2) (rootbone.head_local + rootbone.tail_local)))
    ∧ armatureSpaceCoords ctx.mesh_matrix_world arm_obj.matrix_world
        (centroid ((((CreateChainMeshArray.execute rootbone_enum ctx).2.verts.drop
            (ctx.mesh.verts.length
              + (i - 1) * (ctx.mesh.verts.filter (fun v => v.select)).length)).take
            (ctx.mesh.verts.filter (fun v => v.select)).length).map (fun v => v.co)))
      = Vec3.smul (1 / 2) (bi.head_local + bi.tail_local) := by
  set chain := chainWalk rootbone with hchaindef
  set m1 := rebuildVGroups chain ctx.mesh with hm1def
  set T := m1.verts.filter (fun v => v.select) with hTdef
  obtain ⟨hgroups, ⟨F0, hverts⟩, hid, _⟩ := rebuildVGroups_spec chain ctx.mesh hg hbn
  have hexec := replicator_execute_eq rootbone_enum ctx arm_obj rootbone chain m1 T
    harm hroot hg hbn hwf hchaindef hm1def hTdef
  have hwf1 : ∀ v ∈ m1.verts, v.id < m1.next_id := by
    intro v hv
    rw [hm1def, hverts] at hv
    simp only [List.mem_map] at hv
    obtain ⟨v0, hv0, rfl⟩ := hv
    rw [hm1def, hid]
    exact hwf.2 v0 hv0
  have htmp : ∀ t ∈ T.map (fun v => v.id), t < m1.next_id := by
    intro t ht
    simp only [List.mem_map] at ht
    obtain ⟨v, hv, rfl⟩ := ht
    rw [hTdef] at hv
    exact hwf1 v (List.mem_of_mem_filter hv)
  have hm1len : m1.verts.length = ctx.mesh.verts.length := by
    rw [hm1def, hverts, List.length_map]
  have hKT : T.length = (ctx.mesh.verts.filter (fun v => v.select)).length := by
    rw [hTdef, hm1def, hverts, List.filter_map, List.length_map]
    congr 1
  have hTco : T.map (fun v => v.co)
      = (ctx.mesh.verts.filter (fun v => v.select)).map (fun v => v.co) := by
    rw [hTdef, hm1def, hverts, List.filter_map, List.map_map]
    rfl
  -- the block of duplicate i
  have hbones : (chain.drop 1)[i - 1]? = some bi := by
    rw [List.getElem?_drop, show 1 + (i - 1) = i by omega]
    exact hbi
  have hblock := dupliBlocks_block
    (ctx.mesh_matrix_world.inverted.comp arm_obj.matrix_world)
    (Vec3.smul (1 / 2) (rootbone.head_local + rootbone.tail_local))
    m1.vertex_groups T (chain.drop 1) (i - 1) m1.next_id bi hbones
  set m2 : MeshState :=
    { verts := m1.verts ++ dupliBlocks
        (ctx.mesh_matrix_world.inverted.comp arm_obj.matrix_world)
        (Vec3.smul (1 / 2) (rootbone.head_local + rootbone.tail_local))
        m1.vertex_groups T m1.next_id (chain.drop 1)
      vertex_groups := m1.vertex_groups
      next_id := m1.next_id + (chain.drop 1).length * T.length } with hm2def
  -- the final root assignment does not move any vertex and does not touch
  -- the duplicates at all, so the block's coordinates are the block's
  have hco_pres : ∀ (l : List BMVert),
      (l.map (fun v =>
        if idMem (T.map (fun v => v.id)) v.id then
          { v with dvert := dvertSet ((vgIndex m1.vertex_groups rootbone.name).getD 0) 1 v.dvert }
        else v)).map (fun v => v.co) = l.map (fun v => v.co) := by
    intro l
    rw [List.map_map]
    apply List.map_congr_left
    intro v _
    by_cases hmem : idMem (T.map (fun v => v.id)) v.id = true <;> simp [hmem]
  have hout_verts : (CreateChainMeshArray.execute rootbone_enum ctx).2.verts.map (fun v => v.co)
      = m2.verts.map (fun v => v.co) := by
    rw [hexec]
    show (assign_bone_verts rootbone.name (T.map (fun v => v.id)) m2).verts.map (fun v => v.co)
      = m2.verts.map (fun v => v.co)
    simp only [assign_bone_verts]
    cases hvgr : vgIndex m2.vertex_groups rootbone.name with
    | none => rfl
    | some k =>
      show ((m2.verts.map (fun v =>
          if idMem (T.map (fun v => v.id)) v.id then { v with dvert := dvertSet k 1 v.dvert }
          else v)).map (fun v => v.co)) = m2.verts.map (fun v => v.co)
      rw [List.map_map]
      apply List.map_congr_left
      intro v _
      by_cases hmem : idMem (T.map (fun v => v.id)) v.id = true <;> simp [hmem]
  have hblockco :
      (((CreateChainMeshArray.execute rootbone_enum ctx).2.verts.drop
          (ctx.mesh.verts.length
            + (i - 1) * (ctx.mesh.verts.filter (fun v => v.select)).length)).take
          (ctx.mesh.verts.filter (fun v => v.select)).length).map (fun v => v.co)
        = ((ctx.mesh.verts.filter (fun v => v.select)).map (fun v => v.co)).map
            (fun c => c + (ctx.mesh_matrix_world.inverted.comp arm_obj.matrix_world).lin.mulVec
              (Vec3.smul (1 / 2) (bi.head_local + bi.tail_local)
                - Vec3.smul (1 / 2) (rootbone.head_local + rootbone.tail_local))) := by
    rw [← hKT, List.map_take, List.map_drop, hout_verts]
    rw [← List.map_drop, ← List.map_take]
    have hdrop2 : ∀ (l1 l2 : List BMVert) (n x : Nat), l1.length = n →
        (l1 ++ l2).drop (n + x) = l2.drop x := by
      intro l1 l2 n x h
      subst h
      exact List.drop_append x
    rw [show m2.verts = m1.verts ++ dupliBlocks
        (ctx.mesh_matrix_world.inverted.comp arm_obj.matrix_world)
        (Vec3.smul (1 / 2) (rootbone.head_local + rootbone.tail_local))
        m1.vertex_groups T m1.next_id (chain.drop 1) from rfl]
    rw [hdrop2 _ _ _ _ hm1len, hblock, blockVerts_map_co, ← hTco, List.map_map]
    apply List.map_congr_left
    intro t _
    rfl
  refine ⟨hblockco, ?_⟩
  rw [hblockco]
  have hne : (ctx.mesh.verts.filter (fun v => v.select)).map (fun v => v.co) ≠ [] := by
    intro hnil
    have := congrArg List.length hnil
    simp only [List.length_map, List.length_nil] at this
    omega
  rw [centroid_map_add _ _ hne, armatureSpaceCoords_add, hmid]
  have hcollapse : arm_obj.matrix_world.lin.inv.mulVec (ctx.mesh_matrix_world.lin.mulVec
      ((ctx.mesh_matrix_world.inverted.comp arm_obj.matrix_world).lin.mulVec
        (Vec3.smul (1 / 2) (bi.head_local + bi.tail_local)
          - Vec3.smul (1 / 2) (rootbone.head_local + rootbone.tail_local))))
      = Vec3.smul (1 / 2) (bi.head_local + bi.tail_local)
        - Vec3.smul (1 / 2) (rootbone.head_local + rootbone.tail_local) := by
    rw [show (ctx.mesh_matrix_world.inverted.comp arm_obj.matrix_world).lin
        = ctx.mesh_matrix_world.lin.inv.mul arm_obj.matrix_world.lin from rfl]
    rw [Mat3.mulVec_mulVec, Mat3.mulVec_mulVec, Mat3.mul_assoc3]
    rw [← Mat3.mul_assoc3 ctx.mesh_matrix_world.lin ctx.mesh_matrix_world.lin.inv
      arm_obj.matrix_world.lin]
    rw [hMw, Mat3.idM_mul, hAw, Mat3.idM_mulVec]
  rw [hcollapse]
  apply Vec3.ext3 <;> simp [Vec3.smul] <;> ring

/-- Witness instantiating C5 at the concrete two-bone chain, identity world
transforms, and a one-vertex template sitting at the root bone's midpoint. -/
theorem claim_C5_witness :
    get_armature_object testReplicatorCtx.modifiers = some testArm
    ∧ findBone testArm.bones "Bone" = some testRoot
    ∧ (1 ≤ 1 ∧ 1 < (chainWalk testRoot).length)
    ∧ (chainWalk testRoot)[1]? = some testChild
    ∧ 0 < (testReplicatorCtx.mesh.verts.filter (fun v => v.select)).length
    ∧ testReplicatorCtx.mesh_matrix_world.lin.mul testReplicatorCtx.mesh_matrix_world.lin.inv
        = Mat3.idM
    ∧ testArm.matrix_world.lin.inv.mul testArm.matrix_world.lin = Mat3.idM
    ∧ armatureSpaceCoords testReplicatorCtx.mesh_matrix_world testArm.matrix_world
        (centroid ((testReplicatorCtx.mesh.verts.filter (fun v => v.select)).map (fun v => v.co)))
        = Vec3.smul (1 / 2) (testRoot.head_local + testRoot.tail_local)
    ∧ ((((CreateChainMeshArray.execute "Bone" testReplicatorCtx).2.verts.drop
          (testReplicatorCtx.mesh.verts.length
            + (1 - 1) * (testReplicatorCtx.mesh.verts.filter (fun v => v.select)).length)).take
          (testReplicatorCtx.mesh.verts.filter (fun v => v.select)).length).map (fun v => v.co)
        = ((testReplicatorCtx.mesh.verts.filter (fun v => v.select)).map (fun v => v.co)).map
            (fun c => c + (testReplicatorCtx.mesh_matrix_world.inverted.comp
                testArm.matrix_world).lin.mulVec
              (Vec3.smul (1 / 2) (testChild.head_local + testChild.tail_local)
                - Vec3.smul (1 / 2) (testRoot.head_local + testRoot.tail_local)))
      ∧ armatureSpaceCoords testReplicatorCtx.mesh_matrix_world testArm.matrix_world
          (centroid ((((CreateChainMeshArray.execute "Bone" testReplicatorCtx).2.verts.drop
              (testReplicatorCtx.mesh.verts.length
                + (1 - 1) * (testReplicatorCtx.mesh.verts.filter (fun v => v.select)).length)).take
              (testReplicatorCtx.mesh.verts.filter (fun v => v.select)).length).map (fun v => v.co)))
        = Vec3.smul (1 / 2) (testChild.head_local + testChild.tail_local)) := by
  have hroot : findBone testArm.bones "Bone" = some testRoot := by
    simp [findBone, testArm, testRoot, testChild]
  have hbn : ((chainWalk testRoot).map BoneNode.name).Nodup := by
    simp [chainWalk, testRoot, testChild, BoneNode.name]
  have hwf : wfIds testReplicatorCtx.mesh := by
    constructor
    · simp [testReplicatorCtx, testMesh]
    · intro v hv
      simp only [testReplicatorCtx, testMesh, List.mem_singleton] at hv
      subst hv
      decide
  have hiM : 1 < (chainWalk testRoot).length := by
    simp [chainWalk, testRoot, testChild]
  have hbi : (chainWalk testRoot)[1]? = some testChild := by
    simp [chainWalk, testRoot, testChild]
  have hKpos : 0 < (testReplicatorCtx.mesh.verts.filter (fun v => v.select)).length := by
    simp [testReplicatorCtx, testMesh]
  have hMw : testReplicatorCtx.mesh_matrix_world.lin.mul
      testReplicatorCtx.mesh_matrix_world.lin.inv = Mat3.idM := by
    show (AffineT.idT.lin.mul AffineT.idT.lin.inv) = Mat3.idM
    norm_num [AffineT.idT, Mat3.idM, Mat3.mul, Mat3.inv, Mat3.det]
  have hAw : testArm.matrix_world.lin.inv.mul testArm.matrix_world.lin = Mat3.idM := by
    show (AffineT.idT.lin.inv.mul AffineT.idT.lin) = Mat3.idM
    norm_num [AffineT.idT, Mat3.idM, Mat3.mul, Mat3.inv, Mat3.det]
  have hmid : armatureSpaceCoords testReplicatorCtx.mesh_matrix_world testArm.matrix_world
      (centroid ((testReplicatorCtx.mesh.verts.filter (fun v => v.select)).map (fun v => v.co)))
      = Vec3.smul (1 / 2) (testRoot.head_local + testRoot.tail_local) := by
    norm_num [testReplicatorCtx, testMesh, testArm, testRoot, armatureSpaceCoords,
      AffineT.inverted, AffineT.apply, AffineT.idT, Mat3.inv, Mat3.det, Mat3.idM, Mat3.mulVec,
      centroid, vecSum, Vec3.zero, Vec3.smul, BoneNode.head_local, BoneNode.tail_local]
  exact ⟨rfl, hroot, ⟨le_refl 1, hiM⟩, hbi, hKpos, hMw, hAw, hmid,
    claim_C5_duplicate_translation "Bone" testReplicatorCtx testArm testRoot testChild 1
      rfl hroot hbn (by simp [testReplicatorCtx, testMesh]) hwf (le_refl 1) hiM hbi hKpos
      hMw hAw hmid⟩
